import Mathlib

/-!
Verification development for the mcp-catalog operational scripts.

The Lean definitions below are a shallow embedding of the Python sources:

  * `scripts/mcp_tool_linter/mcp_tool_linter.py`
  * `scripts/upstream_sync/auto_sync_workflow.py`
  * `scripts/validation/get-env-requirements.py`

YAML/JSON documents are modelled by the inductive `JVal` (mapping keys are
modelled as strings, matching JSON objects); machine integers are `Int`/`Nat`;
fallible operations (file reads, HTTP calls, the OpenAI calls) are modelled by
`Except`/`Option`-valued oracle parameters; the process environment is a
`String → Option String` map.  Side-effecting prints are modelled as lists of
output lines, and file-system effects as traces of abstract file operations.
-/

/-- Python-style JSON/YAML value.  A YAML `null` is `JVal.null`; mapping keys
are modelled as strings (JSON object keys). -/
inductive JVal where
  | null
  | bool (b : Bool)
  | num (n : Int)
  | str (s : String)
  | list (xs : List JVal)
  | dict (kvs : List (String × JVal))
deriving Repr

/-- First-match association-list lookup: Python `d.get(k)` / `d[k]` on a dict
modelled as an ordered key/value list. -/
def alookup (kvs : List (String × JVal)) (k : String) : Option JVal :=
  match kvs with
  | [] => none
  | (k', v) :: rest => if k' = k then some v else alookup rest k

/-- Python dict assignment `d[k] = v`: update the existing binding in place,
else append a new binding (insertion order preserved). -/
def dset (kvs : List (String × JVal)) (k : String) (v : JVal) :
    List (String × JVal) :=
  match kvs with
  | [] => [(k, v)]
  | (k', v') :: rest => if k' = k then (k, v) :: rest else (k', v') :: dset rest k v

/-- Python truthiness of a JSON/YAML value (`if x:`). -/
def truthy : JVal → Bool
  | .null => false
  | .bool b => b
  | .num n => n != 0
  | .str s => s != ""
  | .list xs => !xs.isEmpty
  | .dict kvs => !kvs.isEmpty

/-- One step of the `params`-as-dict loop of `convert_tool_to_openai_format`
(mcp_tool_linter.py lines 27-38): the running `(properties, required)` pair
is extended according to the shape of one parameter entry. -/
def convDictStep (pr : List (String × JVal) × List JVal) (kv : String × JVal) :
    List (String × JVal) × List JVal :=
  match kv.2 with
  | .str s =>
      (dset pr.1 kv.1 (.dict [("type", .str "string"), ("description", .str s)]), pr.2)
  | .dict pinfo =>
      (dset pr.1 kv.1 (.dict pinfo),
       if truthy ((alookup pinfo "required").getD (.bool false))
       then pr.2 ++ [.str kv.1] else pr.2)
  | _ => pr

/-- One step of the `params`-as-list loop of `convert_tool_to_openai_format`
(mcp_tool_linter.py lines 46-55).  Python accepts any truthy `name` value as a
dict key; with string-keyed objects only string names are representable, so a
non-string `name` is treated like a missing one. -/
def convListStep (pr : List (String × JVal) × List JVal) (param : JVal) :
    List (String × JVal) × List JVal :=
  match param with
  | .dict pkvs =>
      match alookup pkvs "name" with
      | some (.str s) =>
          if s != "" then
            (dset pr.1 s (.dict
               [("type", (alookup pkvs "type").getD (.str "string")),
                ("description",
                 (alookup pkvs "description").getD
                   ((alookup pkvs "desc").getD (.str "")))]),
             if truthy ((alookup pkvs "required").getD (.bool false))
             then pr.2 ++ [.str s] else pr.2)
          else pr
      | _ => pr
  | _ => pr

/-- `convert_tool_to_openai_format` (mcp_tool_linter.py lines 8-57) on a tool
that is a dict, given as its key/value list. -/
def convert_tool_to_openai_format (tool : List (String × JVal)) : JVal :=
  let name := (alookup tool "name").getD (.str "unnamed_tool")
  let desc := (alookup tool "description").getD (.str "")
  let fn0 : List (String × JVal) := [("name", name), ("description", desc)]
  let params := (alookup tool "params").getD (.dict [])
  match params with
  | .dict kvs =>
      let pr := kvs.foldl convDictStep ([], [])
      .dict [("type", .str "function"),
             ("function", .dict (fn0 ++
               [("parameters", .dict
                 [("type", .str "object"),
                  ("properties", .dict pr.1),
                  ("required", .list pr.2)])]))]
  | .list ps =>
      let pr := ps.foldl convListStep ([], [])
      .dict [("type", .str "function"),
             ("function", .dict (fn0 ++
               [("parameters", .dict
                 [("type", .str "object"),
                  ("properties", .dict pr.1),
                  ("required", .list pr.2)])]))]
  | _ =>
      .dict [("type", .str "function"), ("function", .dict fn0)]

example :
    convert_tool_to_openai_format
      [("name", .str "t"),
       ("params", .dict [("a", .str "descA"),
                         ("b", .dict [("type", .str "number"), ("required", .bool true)])])]
    = .dict [("type", .str "function"),
             ("function", .dict
               [("name", .str "t"), ("description", .str ""),
                ("parameters", .dict
                  [("type", .str "object"),
                   ("properties", .dict
                     [("a", .dict [("type", .str "string"), ("description", .str "descA")]),
                      ("b", .dict [("type", .str "number"), ("required", .bool true)])]),
                   ("required", .list [.str "b"])])])] := rfl

/-- Python `s.lower()` (ASCII case mapping), via a structural map so the
kernel can evaluate it. -/
def pyLower (s : String) : String := String.mk (s.data.map Char.toLower)

/-- Python `s.upper()` (ASCII case mapping). -/
def pyUpper (s : String) : String := String.mk (s.data.map Char.toUpper)

/-- Python `s.split(sep)` for a one-character separator, on character lists:
always returns at least one (possibly empty) piece. -/
def splitOnChar (sep : Char) : List Char → List (List Char)
  | [] => [[]]
  | c :: rest =>
      if c = sep then [] :: splitOnChar sep rest
      else
        match splitOnChar sep rest with
        | h :: t => (c :: h) :: t
        | [] => [[c]]

/-- Python `s.split(sep)` for a one-character separator. -/
def pySplit (s : String) (sep : Char) : List String :=
  (splitOnChar sep s.data).map String.mk

/-- The linter's severity strings: `"info" < "low" < "medium" < "high" <
"unknown"` under `rank` (mcp_tool_linter.py line 216). -/
inductive Sev where
  | info
  | low
  | medium
  | high
  | unknown
deriving DecidableEq, Repr

/-- `rank = {"info":0,"low":1,"medium":2,"high":3,"unknown":4}`
(mcp_tool_linter.py line 216). -/
def rank : Sev → Nat
  | .info => 0
  | .low => 1
  | .medium => 2
  | .high => 3
  | .unknown => 4

/-- Severity string as printed (`t['severity']`). -/
def sevStr : Sev → String
  | .info => "info"
  | .low => "low"
  | .medium => "medium"
  | .high => "high"
  | .unknown => "unknown"

/-- A successfully parsed GPT answer from `check_tool_with_gpt5`
(mcp_tool_linter.py lines 80-86): the JSON object the model is asked to return.
`reasoning` is `none` when the key is absent. -/
structure GptRes where
  isMalicious : Bool
  riskLevel : String
  concerns : List String
  recommendations : List String
  reasoning : Option String
deriving DecidableEq, Repr

/-- Outcome of `check_tool_with_gpt5` (mcp_tool_linter.py lines 59-113): either
an `{"error": ...}` dict (missing key, non-200 response, exception) or the
parsed analysis. -/
inductive GptOutcome where
  | err (msg : String)
  | ok (res : GptRes)
deriving DecidableEq, Repr

/-- Python `f"{x}"` rendering of a JSON value as used in console lines; the
rendering of containers is abbreviated (it never matters to the theorems). -/
def jdisplay : JVal → String
  | .null => "None"
  | .bool b => if b then "True" else "False"
  | .num n => toString n
  | .str s => s
  | .list _ => "[...]"
  | .dict _ => "..."

/-- `f"{tool['name']}"` where the name may be missing (`tool.get("name")`). -/
def jdisplayOpt : Option JVal → String
  | none => "None"
  | some v => jdisplay v

/-- The per-tool report dict built by `analyze_tool_with_gpt`
(mcp_tool_linter.py lines 115-142). -/
structure ToolReport where
  name : Option JVal
  severity : Sev
  analysis : GptOutcome
  summary : String
deriving Repr

/-- `severity_map` lookup with default `"unknown"` (mcp_tool_linter.py lines
127-135): the GPT `risk_level` string mapped to a severity. -/
def severity_map_get (riskLevel : String) : Sev :=
  if riskLevel = "low" then .low
  else if riskLevel = "medium" then .medium
  else if riskLevel = "high" then .high
  else if riskLevel = "critical" then .high
  else .unknown

/-- `analyze_tool_with_gpt` (mcp_tool_linter.py lines 115-142); the GPT call is
the oracle `gpt`. -/
def analyze_tool_with_gpt (tool : JVal) (gpt : JVal → GptOutcome) : ToolReport :=
  let nm := match tool with
    | .dict kvs => alookup kvs "name"
    | _ => none
  match gpt tool with
  | .err e =>
      { name := nm, severity := .unknown, analysis := .err e,
        summary := "GPT analysis failed: " ++ e }
  | .ok g =>
      { name := nm, severity := severity_map_get g.riskLevel, analysis := .ok g,
        summary := "GPT analysis: " ++ (g.reasoning.getD "Analysis completed") }

/-- The key scan of `load_tools` (mcp_tool_linter.py lines 149-151): the first
key among `toolPreview, tools, mcp_tools, tool_list` present with a list
value. -/
def findToolKey (kvs : List (String × JVal)) : List String → Option (List JVal)
  | [] => none
  | k :: ks =>
      match alookup kvs k with
      | some (.list xs) => some xs
      | _ => findToolKey kvs ks

/-- `load_tools` (mcp_tool_linter.py lines 144-155). -/
def load_tools (doc : JVal) : List JVal :=
  match doc with
  | .list xs => xs
  | .dict kvs =>
      match findToolKey kvs ["toolPreview", "tools", "mcp_tools", "tool_list"] with
      | some xs => xs
      | none =>
          if (alookup kvs "name").isSome && (alookup kvs "description").isSome
          then [doc] else []
  | _ => []

/-- `tools.extend(load_tools(doc))` over all YAML documents of a file
(mcp_tool_linter.py lines 162-164). -/
def toolsOfDocs : List JVal → List JVal
  | [] => []
  | d :: rest => load_tools d ++ toolsOfDocs rest

/-- The overall-severity cascade of `lint_file` (mcp_tool_linter.py lines
174-184), computed from the per-tool reports. -/
def overallOf (results : List ToolReport) : Sev :=
  let sevs := (results.map (·.severity)).filter (fun x => x ≠ Sev.unknown)
  if Sev.high ∈ sevs then .high
  else if Sev.medium ∈ sevs then .medium
  else if Sev.low ∈ sevs then .low
  else if Sev.unknown ∈ results.map (·.severity) then .unknown
  else .info

/-- The report dict of `lint_file` (mcp_tool_linter.py lines 157-186): `file`,
`overall_severity`, `tools`, and `message` (present only in the no-tools
case). -/
structure FileReport where
  file : String
  overall : Sev
  tools : List ToolReport
  message : Option String
deriving Repr

/-- `lint_file` (mcp_tool_linter.py lines 157-186) on the parsed YAML documents
of the file; the GPT call is the oracle `gpt`. -/
def lint_file (path : String) (docs : List JVal) (gpt : JVal → GptOutcome) :
    FileReport :=
  let tools := toolsOfDocs docs
  if tools.isEmpty then
    { file := path, overall := .info, tools := [], message := some "No tools found" }
  else
    let results := tools.map (analyze_tool_with_gpt · gpt)
    { file := path, overall := overallOf results, tools := results, message := none }

/-- One entry of the `reports` list in `main` (mcp_tool_linter.py lines
225-235): a lint report, or the `{"file": fp, "error": str(e)}` dict recorded
when the per-file `try` caught an exception. -/
inductive Report where
  | err (file msg : String)
  | ok (fr : FileReport)
deriving Repr

/-- The per-file loop of `main` (mcp_tool_linter.py lines 225-235), with
analysis enabled: `lint` models `lint_file` including the exceptions it may
raise (file read, YAML parse, HTTP call). -/
def runFiles (lint : String → Except String FileReport) : List String → List Report
  | [] => []
  | fp :: rest =>
      (match lint fp with
       | .ok r => Report.ok r
       | .error e => Report.err fp e) :: runFiles lint rest

/-- `rep.get("overall_severity", "info")` (mcp_tool_linter.py line 232): an
error report has no overall severity and counts as `info`. -/
def ovOf : Report → Sev
  | .err _ _ => .info
  | .ok fr => fr.overall

/-- The running `worst = max(worst, ..., key=lambda s: rank[s])` of `main`
(mcp_tool_linter.py lines 215, 232), recomputed over the final report list
(an exception skips the update, and its report counts as `info` anyway). -/
def worstOf (reports : List Report) : Sev :=
  reports.foldl (fun w r => if rank w < rank (ovOf r) then ovOf r else w) .info

/-- `tool["gpt_analysis"].get("is_malicious", False)` (mcp_tool_linter.py line
308). -/
def isMalTool (t : ToolReport) : Bool :=
  match t.analysis with
  | .ok g => g.isMalicious
  | .err _ => false

/-- The `malicious_tools` list of `main` (mcp_tool_linter.py lines 304-309):
`"{file}:{name}"` for every tool whose GPT analysis flagged it; error reports
have no `tools` key and are skipped. -/
def maliciousNames : List Report → List String
  | [] => []
  | .err _ _ :: rest => maliciousNames rest
  | .ok fr :: rest =>
      ((fr.tools.filter isMalTool).map
        (fun t => fr.file ++ ":" ++ jdisplayOpt t.name)) ++ maliciousNames rest

/-- The exit code of the linter's `main` with analysis enabled
(mcp_tool_linter.py lines 311-318): 3 for detected malicious tools (unless
`--no-fail-on-malicious`), else 2 when the worst severity reaches the
`--fail-on` threshold, else 0 (`main` returns normally). -/
def linterExit (reports : List Report) (failOnMalicious : Bool) (failOn : Sev) :
    Nat :=
  if !(maliciousNames reports).isEmpty && failOnMalicious then 3
  else if rank failOn ≤ rank (worstOf reports) then 2
  else 0

/-- The per-tool console lines of `main`'s summary loop (mcp_tool_linter.py
lines 269-297).  A leading `print("\n...")` is modelled as an empty line
followed by the text. -/
def toolDetailLines (t : ToolReport) : List String :=
  ["", "  🔧 " ++ jdisplayOpt t.name ++ ": " ++ pyUpper (sevStr t.severity)] ++
  (match t.analysis with
   | .ok g =>
       ["     " ++ (if g.isMalicious then "🚨 MALICIOUS" else "✅ SAFE")] ++
       (if (g.reasoning.getD "") ≠ "" then
          ["     Reasoning: " ++ g.reasoning.getD ""] else []) ++
       (if !g.concerns.isEmpty then
          "     Security Concerns:" :: g.concerns.map (fun c => "       • " ++ c)
        else []) ++
       (if !g.recommendations.isEmpty then
          "     Recommendations:" :: g.recommendations.map (fun c => "       • " ++ c)
        else [])
   | .err e => ["     ❌ Analysis Error: " ++ e])

/-- The console lines one report contributes in `main`'s summary loop
(mcp_tool_linter.py lines 257-297): header, then either the recorded error,
the no-tools message, or the overall risk plus per-tool details. -/
def reportLines : Report → List String
  | .err f e => ["", "== " ++ f ++ " ==", "ERROR: " ++ e]
  | .ok fr =>
      ["", "== " ++ fr.file ++ " =="] ++
      (match fr.message with
       | some msg => [msg]
       | none =>
           ("Overall Risk: " ++ pyUpper (sevStr fr.overall)) ::
           (fr.tools.map toolDetailLines).foldr (· ++ ·) [])

/-- The whole console summary of `main` (mcp_tool_linter.py lines 257-297). -/
def consoleSummary : List Report → List String
  | [] => []
  | r :: rest => reportLines r ++ consoleSummary rest

/-- One declared `env` entry of a catalog YAML manifest as read by
`get_env_requirements` (get-env-requirements.py lines 60-70): `var["key"]`
must exist (the script raises otherwise); the other keys are optional with the
listed defaults, and `required`/`sensitive` stand for the truthiness of the
declared values. -/
structure EnvEntry where
  key : String
  name : Option String
  description : Option String
  required : Bool
  sensitive : Bool
deriving DecidableEq, Repr

/-- The part of a catalog YAML document `get-env-requirements.py` reads:
`catalog_data.get("env", [])`. -/
structure CatalogDoc where
  env : List EnvEntry
deriving DecidableEq, Repr

/-- A processed entry of `required_vars` (get-env-requirements.py lines
61-70). -/
structure ProcVar where
  key : String
  name : String
  description : String
  required : Bool
  sensitive : Bool
deriving DecidableEq, Repr

/-- The dict returned by `get_env_requirements` (get-env-requirements.py lines
13-78). -/
structure Requirements where
  package : String
  found : Bool
  yamlFile : Option String
  envVars : List ProcVar
  requiredKeys : List String
deriving DecidableEq, Repr

/-- `get_env_requirements` (get-env-requirements.py lines 13-78).  The file
search and YAML load are the oracle `find`: `none` models "no candidate file
exists", `some none` a file that exists but fails to load (the except branch),
`some (some (fname, doc))` a successful load of file `fname`. -/
def get_env_requirements (pkg : String)
    (find : Option (Option (String × CatalogDoc))) : Requirements :=
  match find with
  | none => { package := pkg, found := false, yamlFile := none, envVars := [], requiredKeys := [] }
  | some none => { package := pkg, found := false, yamlFile := none, envVars := [], requiredKeys := [] }
  | some (some (fname, doc)) =>
      let pv := doc.env.map (fun v =>
        { key := v.key, name := v.name.getD v.key,
          description := v.description.getD "", required := v.required,
          sensitive := v.sensitive : ProcVar })
      { package := pkg, found := true, yamlFile := some fname, envVars := pv,
        requiredKeys := (pv.filter (·.required)).map (·.key) }

/-- `if os.environ.get(var_key):` (get-env-requirements.py line 97): the
variable counts as present only when set to a non-empty string. -/
def envTruthy (environ : String → Option String) (k : String) : Bool :=
  (environ k).getD "" ≠ ""

/-- The dict returned by `check_env_availability` (get-env-requirements.py
lines 81-107), restricted to the fields it adds. -/
structure Availability where
  req : Requirements
  missing : List String
  present : List String
  canValidate : Bool
deriving DecidableEq, Repr

/-- `check_env_availability` (get-env-requirements.py lines 81-107). -/
def check_env_availability (req : Requirements)
    (environ : String → Option String) : Availability :=
  { req := req,
    missing := req.requiredKeys.filter (fun k => !envTruthy environ k),
    present := req.requiredKeys.filter (fun k => envTruthy environ k),
    canValidate := (req.requiredKeys.filter (fun k => !envTruthy environ k)).isEmpty ||
                   req.requiredKeys.isEmpty }

/-- The exit code of `get-env-requirements.py`'s `main` (lines 110-133) once a
package name was given: 2 when the YAML was not found (or failed to load),
else 1 when `can_validate` is false, else 0. -/
def envScriptExit (pkg : String) (find : Option (Option (String × CatalogDoc)))
    (environ : String → Option String) : Nat :=
  let result := check_env_availability (get_env_requirements pkg find) environ
  if !result.req.found then 2
  else if !result.canValidate then 1
  else 0

/-- Python `s.rstrip("/")`: all trailing slashes removed. -/
def rstripSlashes (s : String) : String :=
  String.mk ((s.data.reverse.dropWhile (· = '/')).reverse)

/-- Python `v.lstrip("vV")`: all leading `v`/`V` characters removed
(auto_sync_workflow.py line 121). -/
def stripLeadingV (s : String) : String :=
  String.mk (s.data.dropWhile (fun c => c = 'v' || c = 'V'))

/-- `hay` begins with `needle` (character lists). -/
def leadsWith : List Char → List Char → Bool
  | [], _ => true
  | _ :: _, [] => false
  | a :: as, b :: bs => a = b && leadsWith as bs

/-- `needle` occurs contiguously somewhere in `hay` (character lists). -/
def containsSeg (hay needle : List Char) : Bool :=
  if leadsWith needle hay then true
  else
    match hay with
    | [] => false
    | _ :: t => containsSeg t needle

/-- Python substring test `needle in hay`. -/
def strIn (needle hay : String) : Bool := containsSeg hay.data needle.data

/-- Python `s.removesuffix(suf)`. -/
def removeSuffixStr (s suf : String) : String :=
  if leadsWith suf.data.reverse s.data.reverse
  then String.mk (s.data.take (s.data.length - suf.data.length))
  else s

/-- A URL as produced by `urllib.parse.urlparse`: scheme, host (the `hostname`
attribute, which urlparse already lowercases for real inputs), optional port,
and path.  The sync script only ever reads these components. -/
structure Url where
  scheme : String
  host : String
  port : Option Nat
  path : String
deriving DecidableEq, Repr

/-- The `netloc` attribute of a parsed URL (host, plus `:port` when one was
given). -/
def netlocOf (u : Url) : String :=
  u.host ++ (match u.port with | some p => ":" ++ toString p | none => "")

/-- `normalize_url` (auto_sync_workflow.py lines 82-92): lowercased scheme and
host, default ports (and the falsy port 0) dropped, trailing slashes stripped,
query/fragment discarded, reassembled as `urlunparse` would. -/
def normalize_url (u : Url) : String :=
  let netloc :=
    pyLower u.host ++
    (match u.port with
     | some p =>
         if p = 0 then ""
         else if (u.scheme = "http" ∧ p = 80) ∨ (u.scheme = "https" ∧ p = 443) then ""
         else ":" ++ toString p
     | none => "")
  let path0 := if u.path = "" then "/" else u.path
  let path1 := rstripSlashes path0
  let path2 := if path1 ≠ "" ∧ ¬(leadsWith ['/'] path1.data = true) then "/" ++ path1 else path1
  pyLower u.scheme ++ "://" ++ netloc ++ path2

/-- The nonempty `/`-separated components of a URL path
(`u.path.strip("/").split("/")` with empty parts dropped). -/
def pathParts (u : Url) : List String :=
  (pySplit u.path '/').filter (fun p => p ≠ "")

/-- `parse_repo_url` (auto_sync_workflow.py lines 219-230); the Python
`(None, None)` result is `none`. -/
def parse_repo_url (u : Url) : Option (String × String) :=
  if pyLower (netlocOf u) ≠ "github.com" then none
  else
    match pathParts u with
    | p0 :: p1 :: _ => some (p0, removeSuffixStr p1 ".git")
    | _ => none

/-- `parse_repo_url` applied to `server.get("repository", {}).get("url", "")`:
`none` models the empty/absent URL string (which parses to no owner). -/
def parseRepoUrlOpt : Option Url → Option (String × String)
  | none => none
  | some u => parse_repo_url u

/-- The dict `repo_info` builds from the GitHub API answer
(auto_sync_workflow.py lines 237-249).  `pushedDays` is `days_since(pushed_at)`
precomputed: `none` models a missing `pushed_at` (`math.inf`). -/
structure RepoMeta where
  stars : Int
  pushedDays : Option Int
  isFork : Bool
  isArchived : Bool
deriving DecidableEq, Repr

/-- `is_popular_community` (auto_sync_workflow.py lines 507-513): at least
`STAR_MIN` stars, pushed to within `RECENT_DAYS` days, not archived. -/
def is_popular_community (starMin recentDays : Int) (m : RepoMeta) : Bool :=
  starMin ≤ m.stars &&
  (match m.pushedDays with | some d => d ≤ recentDays | none => false) &&
  !m.isArchived

/-- Python truthiness of an optional string (`if meta.get("serverId"):`). -/
def optTruthyS : Option String → Bool
  | none => false
  | some s => s ≠ ""

/-- A server entry of the modelcontextprotocol registry as `_server_key` and
`_parse_ver_str` read it (auto_sync_workflow.py lines 98-123): the official
`serverId` metadata, the name, the repository URL (`none` for an
empty/unparseable one), the version string (`none` for a missing or non-string
one), and `objId`, the Python object identity used by the `obj:` fallback
key. -/
structure RegEntry where
  serverId : Option String
  name : Option String
  repoUrl : Option Url
  version : Option String
  objId : Nat
deriving DecidableEq, Repr

/-- `_server_key` (auto_sync_workflow.py lines 98-114). -/
def server_key (e : RegEntry) : String :=
  if optTruthyS e.serverId then "id:" ++ e.serverId.getD ""
  else if optTruthyS e.name then "name:" ++ pyLower (e.name.getD "")
  else
    match e.repoUrl with
    | some u =>
        if netlocOf u = "github.com" then
          match pathParts u with
          | p0 :: p1 :: _ =>
              "repo:" ++ pyLower p0 ++ "/" ++ pyLower (removeSuffixStr p1 ".git")
          | _ => "obj:" ++ toString e.objId
        else "obj:" ++ toString e.objId
    | none => "obj:" ++ toString e.objId

/-- `_parse_ver_str` (auto_sync_workflow.py lines 116-123), parameterised by
the `packaging.version.Version` parser `pv` (a third-party library; `pv`
returning `none` models `InvalidVersion`). -/
def parse_ver_str {V : Type} (pv : String → Option V) : Option String → Option V
  | none => none
  | some s => if s = "" then none else pv (stripLeadingV s)

/-- First-match lookup in the `best` dict of
`fetch_modelcontextprotocol_registry_servers`, modelled as an ordered
association list. -/
def bestLookup {V : Type} (best : List (String × Option V × RegEntry))
    (k : String) : Option (Option V × RegEntry) :=
  match best with
  | [] => none
  | (k', v) :: rest => if k' = k then some v else bestLookup rest k

/-- Python dict assignment on `best`: update in place, else append. -/
def bestSet {V : Type} (best : List (String × Option V × RegEntry)) (k : String)
    (v : Option V × RegEntry) : List (String × Option V × RegEntry) :=
  match best with
  | [] => [(k, v)]
  | (k', v') :: rest => if k' = k then (k, v) :: rest else (k', v') :: bestSet rest k v

/-- One `best`-dict update of the fetch loop (auto_sync_workflow.py lines
187-196): keep the first entry for a key unless the new entry's version parses
and is strictly newer (`new_v is not None and (old_v is None or new_v >
old_v)`). -/
def updBest {V : Type} [LinearOrder V] (pv : String → Option V)
    (best : List (String × Option V × RegEntry)) (e : RegEntry) :
    List (String × Option V × RegEntry) :=
  let k := server_key e
  let newv := parse_ver_str pv e.version
  match bestLookup best k with
  | none => best ++ [(k, (newv, e))]
  | some (oldv, _) =>
      if (match newv, oldv with
          | none, _ => false
          | some _, none => true
          | some nv, some ov => decide (ov < nv))
      then bestSet best k (newv, e)
      else best

/-- The accumulation of `best` over all entries of all fetched pages
(auto_sync_workflow.py lines 182-196); a `none` item models an entry whose
`"server"` value is falsy and is skipped. -/
def fetch_dedup {V : Type} [LinearOrder V] (pv : String → Option V)
    (items : List (Option RegEntry)) : List (String × Option V × RegEntry) :=
  items.foldl
    (fun best it => match it with | none => best | some e => updBest pv best e) []

/-- The list `fetch_modelcontextprotocol_registry_servers` returns:
`[v[1] for v in best.values()]` (auto_sync_workflow.py line 204). -/
def fetch_servers {V : Type} [LinearOrder V] (pv : String → Option V)
    (items : List (Option RegEntry)) : List RegEntry :=
  (fetch_dedup pv items).map (fun t => t.2.2)

/-- The per-key retention rule as the claim states it: the first-seen entry is
retained unless a later entry's version parses to a strictly greater version,
where a parsed version is strictly greater than an unparsed one; an entry
whose version does not parse never replaces anything. -/
def claimChoose {V : Type} [LinearOrder V] (pv : String → Option V)
    (st : Option (Option V × RegEntry)) (e : RegEntry) :
    Option (Option V × RegEntry) :=
  match st with
  | none => some (parse_ver_str pv e.version, e)
  | some (ov, oe) =>
      match parse_ver_str pv e.version with
      | none => some (ov, oe)
      | some nv =>
          match ov with
          | none => some (some nv, e)
          | some o => if o < nv then some (some nv, e) else some (ov, oe)

/-- One HTTP response of the registry endpoint as the retry loop sees it:
its status code, and whether its payload carries a next-page cursor. -/
structure RegResponse where
  status : Nat
  hasNext : Bool
deriving DecidableEq, Repr

/-- Observable events of the fetch loop: a backoff sleep, an exception raised
by `raise_for_status`, or a successfully processed page. -/
inductive FetchEv where
  | slept (seconds : Nat)
  | raised (status : Nat)
  | page
deriving DecidableEq, Repr

/-- The retry loop of `fetch_modelcontextprotocol_registry_servers`
(auto_sync_workflow.py lines 170-202) over a stream of responses: a status
`>= 500` with fewer than 3 retries consumed sleeps `2 ** attempts` seconds and
retries; otherwise `raise_for_status` raises on any 4xx/5xx; otherwise the
page is processed and the loop continues while a next cursor exists. -/
def fetch_retry_trace : List RegResponse → Nat → List FetchEv
  | [], _ => []
  | r :: rest, attempts =>
      if 500 ≤ r.status ∧ attempts < 3 then
        .slept (2 ^ (attempts + 1)) :: fetch_retry_trace rest (attempts + 1)
      else if 400 ≤ r.status ∧ r.status < 600 then [.raised r.status]
      else if r.hasNext then .page :: fetch_retry_trace rest attempts
      else [.page]

/-- The seconds slept, in order, in a fetch trace. -/
def sleepsOf : List FetchEv → List Nat
  | [] => []
  | .slept n :: rest => n :: sleepsOf rest
  | _ :: rest => sleepsOf rest

/-- A server record as `filter_group_x_ai` reads it (auto_sync_workflow.py
lines 597-624): the `active` marker, the full `name`, the repository URL
(`none` for an empty/absent string), and whether a `remotes` key exists. -/
structure Server where
  active : String
  name : String
  repoUrl : Option Url
  hasRemotes : Bool
deriving DecidableEq, Repr

/-- A catalog entry as `filter_group_x_ai` reads it: its `name` and
`repoURL`. -/
structure CatalogEntry where
  name : String
  repoUrl : Url
deriving DecidableEq, Repr

/-- The decision/reason pair parsed from the AI judge's JSON answer
(auto_sync_workflow.py line 647); the numeric `confidence` is carried along
but never read by the control flow and is omitted here. -/
structure AiResult where
  decision : String
  reason : String
deriving DecidableEq, Repr

/-- One entry of `ai_categorization_cache.json` as the filter reads it
(`ai_decision`/`ai_reason`; the confidence, timestamp and echo fields are
write-only metadata). -/
structure CacheEntry where
  decision : String
  reason : String
deriving DecidableEq, Repr

/-- The inputs of `filter_group_x_ai` that stay fixed over the loop: the state
index, the precomputed normalized catalog URL set and space-joined lowercased
catalog name string, the `repo_info` oracle (`none` models a raised
exception), the AI judge oracle, and the `STAR_MIN`/`RECENT_DAYS`
configuration (defaults 500 and 30). -/
structure SyncCtx where
  existing : List String
  urlSet : List String
  oneLongName : String
  repoMeta : String → String → Option RepoMeta
  judge : Server → AiResult
  starMin : Int
  recentDays : Int

/-- The mutable state of the `filter_group_x_ai` loop.  Python mutates the
server dict before appending (`server["kind"] = ...`); the model records the
same information as a `(server, kind)` pair. -/
structure FState where
  cache : List (String × CacheEntry)
  misses : Nat
  filtered : List (Server × String)
  nonActive : List Server
  likelyRemote : List Server

/-- First-match lookup in the AI cache dict. -/
def cacheLookup (c : List (String × CacheEntry)) (k : String) :
    Option CacheEntry :=
  match c with
  | [] => none
  | (k', v) :: rest => if k' = k then some v else cacheLookup rest k

/-- Python dict assignment on the AI cache: update in place, else append. -/
def cacheSet (c : List (String × CacheEntry)) (k : String) (v : CacheEntry) :
    List (String × CacheEntry) :=
  match c with
  | [] => [(k, v)]
  | (k', v') :: rest => if k' = k then (k, v) :: rest else (k', v') :: cacheSet rest k v

/-- `get_cache_key` (auto_sync_workflow.py lines 453-457). -/
def get_cache_key (s : Server) : String :=
  match s.repoUrl with
  | some u => s.name ++ ":" ++ normalize_url u
  | none => s.name

/-- The final classification of one server (auto_sync_workflow.py lines
664-675): `official` is always kept, `community` only when popular, anything
else (e.g. `uncertain`) is dropped. -/
def classifyStep (ctx : SyncCtx) (st : FState) (s : Server) (m : RepoMeta)
    (d : String) : FState :=
  if d = "official" then { st with filtered := st.filtered ++ [(s, "official")] }
  else if d = "community" then
    if is_popular_community ctx.starMin ctx.recentDays m then
      { st with filtered := st.filtered ++ [(s, "community")] }
    else st
  else st

/-- The body of the `for i, server in enumerate(servers)` loop of
`filter_group_x_ai` (auto_sync_workflow.py lines 597-675). -/
def processServer (ctx : SyncCtx) (st : FState) (s : Server) : FState :=
  if pyLower s.active ≠ "active" then { st with nonActive := st.nonActive ++ [s] }
  else if s.name ∈ ctx.existing then st
  else
    let shortName := pyLower ((pySplit s.name '/').getLastD "")
    if shortName ≠ "mcp" ∧ strIn shortName ctx.oneLongName then st
    else
      let urlDup : Bool :=
        match s.repoUrl with
        | some u => decide (normalize_url u ∈ ctx.urlSet)
        | none => false
      if urlDup then st
      else
        match parseRepoUrlOpt s.repoUrl with
        | none =>
            if s.hasRemotes then { st with likelyRemote := st.likelyRemote ++ [s] }
            else st
        | some (o, r) =>
            match ctx.repoMeta o r with
            | none => st
            | some m =>
                let ck := get_cache_key s
                match cacheLookup st.cache ck with
                | some c => classifyStep ctx st s m c.decision
                | none =>
                    let res := ctx.judge s
                    classifyStep ctx
                      { st with
                        cache := cacheSet st.cache ck ⟨res.decision, res.reason⟩,
                        misses := st.misses + 1 } s m res.decision

/-- The fixed context of one `filter_group_x_ai` run, built as the function
does at its top (auto_sync_workflow.py lines 594-595). -/
def mkSyncCtx (repoMeta : String → String → Option RepoMeta)
    (judge : Server → AiResult) (starMin recentDays : Int)
    (catalog : List CatalogEntry) (existing : List String) : SyncCtx :=
  { existing := existing,
    urlSet := catalog.map (fun y => normalize_url y.repoUrl),
    oneLongName := pyLower (String.intercalate " " (catalog.map (·.name))),
    repoMeta := repoMeta, judge := judge,
    starMin := starMin, recentDays := recentDays }

/-- `filter_group_x_ai` (auto_sync_workflow.py lines 582-692) as a fold of
`processServer` starting from the loaded AI cache and empty result lists. -/
def filter_group_x_ai (repoMeta : String → String → Option RepoMeta)
    (judge : Server → AiResult) (starMin recentDays : Int)
    (servers : List Server) (catalog : List CatalogEntry)
    (existing : List String) (initCache : List (String × CacheEntry)) : FState :=
  servers.foldl (processServer (mkSyncCtx repoMeta judge starMin recentDays catalog existing))
    { cache := initCache, misses := 0, filtered := [], nonActive := [], likelyRemote := [] }

/-- The AI decision `filter_group_x_ai` acts on for a server: the cached one
on a cache hit, else the fresh judge's answer (auto_sync_workflow.py lines
632-658). -/
def effectiveDecision (cache : List (String × CacheEntry))
    (judge : Server → AiResult) (s : Server) : String :=
  match cacheLookup cache (get_cache_key s) with
  | some c => c.decision
  | none => (judge s).decision

/-- An abstract file-system operation: reading a whole file, overwriting a
whole file in one step, appending, or modifying a part in place.  The sync
script's loads and saves are modelled as traces of these. -/
inductive FOp where
  | read (path : String)
  | writeWhole (path : String)
  | append (path : String)
  | writePart (path : String)
deriving DecidableEq, Repr

/-- Basename of `SELECTED_SERVERS_FILE` (auto_sync_workflow.py line 45). -/
def selectedServersFile : String := "selected_server.json"

/-- Basename of `CACHE_FILE_PATH` (auto_sync_workflow.py line 426). -/
def aiCacheFile : String := "ai_categorization_cache.json"

/-- File operations of `load_selected_servers` (auto_sync_workflow.py lines
380-393): one whole-file read when the file exists, none otherwise (a failed
`json.load` is caught and still counts as the one read). -/
def load_selected_servers_ops (fileIsThere : Bool) : List FOp :=
  if fileIsThere then [.read selectedServersFile] else []

/-- File operations of `save_selected_servers` (auto_sync_workflow.py lines
395-403): `open(..., 'w')` plus `json.dump` of the whole dict, one whole-file
overwrite (`os.makedirs` touches no file content). -/
def save_selected_servers_ops : List FOp := [.writeWhole selectedServersFile]

/-- File operations of `load_ai_cache` (auto_sync_workflow.py lines
428-441). -/
def load_ai_cache_ops (fileIsThere : Bool) : List FOp :=
  if fileIsThere then [.read aiCacheFile] else []

/-- File operations of `save_ai_cache` (auto_sync_workflow.py lines
443-451). -/
def save_ai_cache_ops : List FOp := [.writeWhole aiCacheFile]

/-- File operations of `filter_group_x_ai`: load the AI cache once at the
top, save it at the end only when there was at least one cache miss
(auto_sync_workflow.py lines 589, 681-682). -/
def filter_group_ops (cacheIsThere : Bool) (misses : Nat) : List FOp :=
  load_ai_cache_ops cacheIsThere ++ (if 0 < misses then save_ai_cache_ops else [])

/-- The state-file operations of one sync run (`main`, auto_sync_workflow.py
lines 859-938), in program order: load the selected-servers state (step 3),
run the filter (step 4, reading and possibly rewriting the AI cache), create
issues (no file operations), save the selected-servers state (step 6). -/
def sync_main_ops (selIsThere cacheIsThere : Bool) (misses : Nat) : List FOp :=
  load_selected_servers_ops selIsThere ++ filter_group_ops cacheIsThere misses ++
  save_selected_servers_ops

/-! ### Support lemmas -/

/-- Operation kind test: a whole-file read. -/
def isRead : FOp → Bool
  | .read _ => true
  | _ => false

/-- Operation kind test: a whole-file overwrite. -/
def isWholeWrite : FOp → Bool
  | .writeWhole _ => true
  | _ => false

/-- Operation kind test: a whole-file read or a whole-file overwrite (i.e.
neither an append nor a partial in-place modification). -/
def isReadOrWhole : FOp → Bool
  | .read _ => true
  | .writeWhole _ => true
  | _ => false

/-- At least one tool of some lint report in `reports` was flagged
`is_malicious` by its GPT analysis. -/
def someMaliciousTool (reports : List Report) : Prop :=
  ∃ fr, Report.ok fr ∈ reports ∧ ∃ t ∈ fr.tools, isMalTool t = true

theorem maliciousNames_ne_nil_iff (reports : List Report) :
    maliciousNames reports ≠ [] ↔ someMaliciousTool reports := by
  induction reports with
  | nil => simp [maliciousNames, someMaliciousTool]
  | cons r rest ih =>
      cases r with
      | err f m =>
          simp only [maliciousNames, someMaliciousTool, List.mem_cons] at *
          rw [ih]
          constructor
          · rintro ⟨fr, hfr, ht⟩
            exact ⟨fr, Or.inr hfr, ht⟩
          · rintro ⟨fr, hfr | hfr, ht⟩
            · exact absurd hfr (by simp)
            · exact ⟨fr, hfr, ht⟩
      | ok fr =>
          simp only [maliciousNames, someMaliciousTool, List.mem_cons, ne_eq,
            List.append_eq_nil, not_and_or, List.map_eq_nil_iff] at *
          rw [ih]
          constructor
          · rintro (hne | hne)
            · refine ⟨fr, Or.inl rfl, ?_⟩
              rcases List.exists_mem_of_ne_nil _ hne with ⟨t, ht⟩
              rw [List.mem_filter] at ht
              exact ⟨t, ht.1, ht.2⟩
            · rcases hne with ⟨fr', hfr', ht⟩
              exact ⟨fr', Or.inr hfr', ht⟩
          · rintro ⟨fr', hfr' | hfr', t, hmem, hmal⟩
            · left
              rcases Report.ok.inj hfr' with rfl
              intro hnil
              have := List.filter_eq_nil_iff.mp hnil t hmem
              simp [hmal] at this
            · right
              exact ⟨fr', hfr', t, hmem, hmal⟩

theorem worst_foldl_ge_init (l : List Report) (w : Sev) :
    rank w ≤ rank (l.foldl (fun w r => if rank w < rank (ovOf r) then ovOf r else w) w) := by
  induction l generalizing w with
  | nil => simp
  | cons r rest ih =>
      simp only [List.foldl_cons]
      refine le_trans ?_ (ih (if rank w < rank (ovOf r) then ovOf r else w))
      by_cases hc : rank w < rank (ovOf r)
      · rw [if_pos hc]
        omega
      · rw [if_neg hc]

theorem worst_foldl_ge_mem (l : List Report) (w : Sev) :
    ∀ r ∈ l,
      rank (ovOf r) ≤
        rank (l.foldl (fun w r => if rank w < rank (ovOf r) then ovOf r else w) w) := by
  induction l generalizing w with
  | nil => simp
  | cons r rest ih =>
      intro r' hr'
      simp only [List.foldl_cons]
      rcases List.mem_cons.mp hr' with rfl | hr'
      · refine le_trans ?_ (worst_foldl_ge_init rest _)
        by_cases hc : rank w < rank (ovOf r')
        · rw [if_pos hc]
        · rw [if_neg hc]
          omega
      · exact ih _ r' hr'

theorem worst_foldl_attained (l : List Report) (w : Sev) :
    l.foldl (fun w r => if rank w < rank (ovOf r) then ovOf r else w) w = w ∨
      ∃ r ∈ l,
        ovOf r = l.foldl (fun w r => if rank w < rank (ovOf r) then ovOf r else w) w := by
  induction l generalizing w with
  | nil => simp
  | cons r rest ih =>
      simp only [List.foldl_cons]
      rcases ih (if rank w < rank (ovOf r) then ovOf r else w) with h | ⟨r', hr', h⟩
      · rw [h]
        by_cases hc : rank w < rank (ovOf r)
        · rw [if_pos hc]
          exact Or.inr ⟨r, by simp, rfl⟩
        · rw [if_neg hc]
          exact Or.inl rfl
      · exact Or.inr ⟨r', List.mem_cons_of_mem _ hr', h⟩

/-- **C2.**  With analysis enabled, the linter's `main` exits 3 exactly when
some analyzed tool's GPT analysis flagged `is_malicious` and
`--no-fail-on-malicious` was not given; otherwise it exits 2 exactly when the
worst overall severity across the file reports ranks at or above the
`--fail-on` threshold (under `info < low < medium < high < unknown`);
otherwise it returns with exit code 0.  The malicious check takes precedence,
and `worstOf` is the pointwise-maximal rank attained by a report (error
reports counting as `info`). -/
theorem c2_linter_exit_codes (reports : List Report) (fm : Bool) (fo : Sev) :
    (linterExit reports fm fo = 3 ↔ (fm = true ∧ someMaliciousTool reports)) ∧
    (linterExit reports fm fo = 2 ↔
      (¬(fm = true ∧ someMaliciousTool reports) ∧ rank fo ≤ rank (worstOf reports))) ∧
    (linterExit reports fm fo = 0 ↔
      (¬(fm = true ∧ someMaliciousTool reports) ∧ rank (worstOf reports) < rank fo)) ∧
    (∀ rep ∈ reports, rank (ovOf rep) ≤ rank (worstOf reports)) ∧
    (worstOf reports = Sev.info ∨ ∃ rep ∈ reports, ovOf rep = worstOf reports) := by
  have hmal : (!(maliciousNames reports).isEmpty && fm) = true ↔
      (fm = true ∧ someMaliciousTool reports) := by
    rw [Bool.and_eq_true, Bool.not_eq_true', List.isEmpty_eq_false_iff_exists_mem]
    constructor
    · rintro ⟨⟨x, hx⟩, hfm⟩
      refine ⟨hfm, (maliciousNames_ne_nil_iff reports).mp ?_⟩
      intro hnil
      rw [hnil] at hx
      exact absurd hx (List.not_mem_nil x)
    · rintro ⟨hfm, hsome⟩
      have := (maliciousNames_ne_nil_iff reports).mpr hsome
      exact ⟨List.exists_mem_of_ne_nil _ this, hfm⟩
  have h3 : linterExit reports fm fo = 3 ↔ (fm = true ∧ someMaliciousTool reports) := by
    rw [← hmal, linterExit]
    by_cases hm : (!(maliciousNames reports).isEmpty && fm) = true
    · simp [hm]
    · simp only [if_neg hm]
      constructor
      · intro hx
        split at hx <;> omega
      · intro hx
        exact absurd hx hm
  have h2 : linterExit reports fm fo = 2 ↔
      (¬(fm = true ∧ someMaliciousTool reports) ∧ rank fo ≤ rank (worstOf reports)) := by
    rw [← hmal, linterExit]
    by_cases hm : (!(maliciousNames reports).isEmpty && fm) = true
    · simp [hm]
    · by_cases hfo : rank fo ≤ rank (worstOf reports)
      · rw [if_neg hm, if_pos hfo]
        exact ⟨fun _ => ⟨hm, hfo⟩, fun _ => rfl⟩
      · rw [if_neg hm, if_neg hfo]
        constructor
        · intro hx
          omega
        · rintro ⟨_, hx⟩
          exact absurd hx hfo
  have h0 : linterExit reports fm fo = 0 ↔
      (¬(fm = true ∧ someMaliciousTool reports) ∧ rank (worstOf reports) < rank fo) := by
    rw [← hmal, linterExit]
    by_cases hm : (!(maliciousNames reports).isEmpty && fm) = true
    · simp [hm]
    · by_cases hfo : rank fo ≤ rank (worstOf reports)
      · rw [if_neg hm, if_pos hfo]
        constructor
        · intro hx
          omega
        · rintro ⟨_, hx⟩
          omega
      · rw [if_neg hm, if_neg hfo]
        exact ⟨fun _ => ⟨hm, by omega⟩, fun _ => rfl⟩
  exact ⟨h3, h2, h0, worst_foldl_ge_mem reports .info, worst_foldl_attained reports .info⟩

/-- **C5.**  In every sync run, each of the two state files is read at most
once; every state-file operation is a whole-file read or a single whole-file
overwrite (never an append or a partial in-place modification); each state
file is overwritten at most once; the trace splits into a read phase followed
by a write phase (the rewrites happen at the end, after every state-file
read); the only files written are the two state files; and the cache-save
operations touch only their own file.  "Atomic" is interpreted inside the
script's sequential semantics: `open(..., 'w')` plus `json.dump` of the whole
dict is one indivisible whole-file overwrite of the trace (crash or
multi-process interleavings are outside the model). -/
theorem c5_state_file_ops (selIsThere cacheIsThere : Bool) (misses : Nat) :
    ((sync_main_ops selIsThere cacheIsThere misses).count
        (FOp.read selectedServersFile) ≤ 1) ∧
    ((sync_main_ops selIsThere cacheIsThere misses).count
        (FOp.read aiCacheFile) ≤ 1) ∧
    ((sync_main_ops selIsThere cacheIsThere misses).count
        (FOp.writeWhole selectedServersFile) ≤ 1) ∧
    ((sync_main_ops selIsThere cacheIsThere misses).count
        (FOp.writeWhole aiCacheFile) ≤ 1) ∧
    ((sync_main_ops selIsThere cacheIsThere misses).all isReadOrWhole = true) ∧
    (∃ rops wops, sync_main_ops selIsThere cacheIsThere misses = rops ++ wops ∧
      rops.all isRead = true ∧ wops.all isWholeWrite = true) ∧
    (∀ op ∈ sync_main_ops selIsThere cacheIsThere misses,
      isWholeWrite op = true →
        op = FOp.writeWhole selectedServersFile ∨ op = FOp.writeWhole aiCacheFile) ∧
    (save_ai_cache_ops.all (· = FOp.writeWhole aiCacheFile) = true) := by
  have hsplit : ∃ rops wops,
      sync_main_ops selIsThere cacheIsThere misses = rops ++ wops ∧
      rops.all isRead = true ∧ wops.all isWholeWrite = true := by
    refine ⟨load_selected_servers_ops selIsThere ++ load_ai_cache_ops cacheIsThere,
            (if 0 < misses then save_ai_cache_ops else []) ++ save_selected_servers_ops,
            ?_, ?_, ?_⟩
    · simp [sync_main_ops, filter_group_ops]
    · cases selIsThere <;> cases cacheIsThere <;>
        simp [load_selected_servers_ops, load_ai_cache_ops, isRead]
    · by_cases hm : 0 < misses <;>
        simp [hm, save_ai_cache_ops, save_selected_servers_ops, isWholeWrite]
  refine ⟨?_, ?_, ?_, ?_, ?_, hsplit, ?_, by simp [save_ai_cache_ops]⟩ <;>
    cases selIsThere <;> cases cacheIsThere <;> by_cases hm : 0 < misses <;>
      simp [sync_main_ops, filter_group_ops, load_selected_servers_ops,
        load_ai_cache_ops, save_ai_cache_ops, save_selected_servers_ops, hm,
        selectedServersFile, aiCacheFile, isReadOrWhole, isWholeWrite,
        List.count_cons, List.count_nil]

/-- A concrete catalog lookup for the C7 counterexample: the package YAML is
found and declares one required variable `API_TOKEN`. -/
def envFindEx : Option (Option (String × CatalogDoc)) :=
  some (some ("demo.yaml",
    { env := [{ key := "API_TOKEN", name := none, description := none,
                required := true, sensitive := false }] }))

/-- A concrete process environment for the C7 counterexample: `API_TOKEN` is
set, but to the empty string (`os.environ.get` then sees a falsy value). -/
def envEnvironEx : String → Option String :=
  fun k => if k = "API_TOKEN" then some "" else none

/-- **C7, counterexample.**  The claim says the script exits 1 only when some
required env entry has *no value set*: here the package YAML is found, every
required variable has a value set in the environment (`API_TOKEN` is set to
`""`), yet the script exits 1, because the code tests truthiness
(`if os.environ.get(var_key):`), counting an empty value as missing. -/
theorem c7_env_exit_counterexample :
    envScriptExit "demo" envFindEx envEnvironEx = 1 ∧
    (get_env_requirements "demo" envFindEx).found = true ∧
    (∀ k ∈ (get_env_requirements "demo" envFindEx).requiredKeys,
      (envEnvironEx k).isSome = true) := by
  refine ⟨by decide, by decide, ?_⟩
  intro k hk
  have hk2 : k ∈ ["API_TOKEN"] := hk
  rw [List.mem_singleton] at hk2
  subst hk2
  decide

/-- **C7, amended.**  For a package name given to `get-env-requirements.py`:
exit code 2 exactly when no catalog YAML is found or it fails to load; exit
code 1 exactly when the file is found but at least one required env entry has
no *non-empty* value set in the process environment; exit code 0 otherwise.
The printed JSON partitions the required keys into `missing_env_vars` (those
whose value is unset or empty) and `present_env_vars` (the others), and
`can_validate` is true exactly when `missing_env_vars` is empty. -/
theorem c7_env_exit_codes (pkg : String)
    (find : Option (Option (String × CatalogDoc)))
    (environ : String → Option String) (k : String) :
    ((get_env_requirements pkg find).found = false ↔
      (find = none ∨ find = some none)) ∧
    (envScriptExit pkg find environ = 2 ↔
      (get_env_requirements pkg find).found = false) ∧
    (envScriptExit pkg find environ = 1 ↔
      (get_env_requirements pkg find).found = true ∧
      (check_env_availability (get_env_requirements pkg find) environ).missing ≠ []) ∧
    (envScriptExit pkg find environ = 0 ↔
      (get_env_requirements pkg find).found = true ∧
      (check_env_availability (get_env_requirements pkg find) environ).missing = []) ∧
    (k ∈ (check_env_availability (get_env_requirements pkg find) environ).missing ↔
      k ∈ (get_env_requirements pkg find).requiredKeys ∧ (environ k).getD "" = "") ∧
    (k ∈ (check_env_availability (get_env_requirements pkg find) environ).present ↔
      k ∈ (get_env_requirements pkg find).requiredKeys ∧ (environ k).getD "" ≠ "") ∧
    ((check_env_availability (get_env_requirements pkg find) environ).canValidate = true ↔
      (check_env_availability (get_env_requirements pkg find) environ).missing = []) := by
  have hfound : (get_env_requirements pkg find).found = false ↔
      (find = none ∨ find = some none) := by
    rcases find with _ | f
    · simp [get_env_requirements]
    · rcases f with _ | fd
      · simp [get_env_requirements]
      · simp [get_env_requirements]
  have hcanv : (check_env_availability (get_env_requirements pkg find) environ).canValidate
      = true ↔
      (check_env_availability (get_env_requirements pkg find) environ).missing = [] := by
    simp only [check_env_availability, Bool.or_eq_true, List.isEmpty_iff]
    constructor
    · rintro (h | h)
      · exact h
      · rw [h]
        simp
    · intro h
      exact Or.inl h
  have hcfalse : ((check_env_availability (get_env_requirements pkg find)
        environ).canValidate = false) ↔
      (check_env_availability (get_env_requirements pkg find) environ).missing ≠ [] := by
    constructor
    · intro h hnil
      rw [hcanv.mpr hnil] at h
      simp at h
    · intro h
      cases hc2 : (check_env_availability (get_env_requirements pkg find)
          environ).canValidate
      · rfl
      · exact absurd (hcanv.mp hc2) h
  have key : ∀ (f c : Bool),
      (((if !f then 2 else if !c then 1 else 0 : Nat) = 2) ↔ f = false) ∧
      (((if !f then 2 else if !c then 1 else 0 : Nat) = 1) ↔ f = true ∧ c = false) ∧
      (((if !f then 2 else if !c then 1 else 0 : Nat) = 0) ↔ f = true ∧ c = true) := by
    decide
  have hform : envScriptExit pkg find environ =
      (if !((check_env_availability (get_env_requirements pkg find) environ).req.found)
       then 2
       else if !((check_env_availability (get_env_requirements pkg find)
           environ).canValidate) then 1 else 0) := rfl
  have hexit2 : envScriptExit pkg find environ = 2 ↔
      (get_env_requirements pkg find).found = false := by
    rw [hform]
    exact (key _ _).1
  have hexit1 : envScriptExit pkg find environ = 1 ↔
      (get_env_requirements pkg find).found = true ∧
      (check_env_availability (get_env_requirements pkg find) environ).missing ≠ [] := by
    rw [hform]
    exact Iff.trans (key _ _).2.1 (and_congr Iff.rfl hcfalse)
  have hexit0 : envScriptExit pkg find environ = 0 ↔
      (get_env_requirements pkg find).found = true ∧
      (check_env_availability (get_env_requirements pkg find) environ).missing = [] := by
    rw [hform]
    exact Iff.trans (key _ _).2.2 (and_congr Iff.rfl hcanv)
  have hmiss : k ∈ (check_env_availability (get_env_requirements pkg find)
        environ).missing ↔
      k ∈ (get_env_requirements pkg find).requiredKeys ∧ (environ k).getD "" = "" := by
    simp only [check_env_availability, List.mem_filter, envTruthy]
    simp
  have hpres : k ∈ (check_env_availability (get_env_requirements pkg find)
        environ).present ↔
      k ∈ (get_env_requirements pkg find).requiredKeys ∧ (environ k).getD "" ≠ "" := by
    simp only [check_env_availability, List.mem_filter, envTruthy]
    simp
  exact ⟨hfound, hexit2, hexit1, hexit0, hmiss, hpres, hcanv⟩

theorem sleeps_take (rs : List RegResponse) (a : Nat) :
    ∃ k, sleepsOf (fetch_retry_trace rs a) = ([2, 4, 8].drop a).take k := by
  induction rs generalizing a with
  | nil => exact ⟨0, by simp [fetch_retry_trace, sleepsOf]⟩
  | cons r rest ih =>
      simp only [fetch_retry_trace]
      by_cases h1 : 500 ≤ r.status ∧ a < 3
      · rw [if_pos h1]
        rcases ih (a + 1) with ⟨k, hk⟩
        refine ⟨k + 1, ?_⟩
        simp only [sleepsOf, hk]
        have ha : a < 3 := h1.2
        interval_cases a <;> simp [List.take_succ_cons]
      · rw [if_neg h1]
        by_cases h2 : 400 ≤ r.status ∧ r.status < 600
        · rw [if_pos h2]
          exact ⟨0, by simp [sleepsOf]⟩
        · rw [if_neg h2]
          by_cases h3 : r.hasNext
          · rw [if_pos h3]
            rcases ih a with ⟨k, hk⟩
            exact ⟨k, by simp [sleepsOf, hk]⟩
          · rw [if_neg h3]
            exact ⟨0, by simp [sleepsOf]⟩

/-- **C1.**  In the registry fetch loop: across a whole run the backoff sleeps
are an in-order prefix of `2, 4, 8` seconds (so at most three retries are ever
taken, with exponentially growing sleeps); once the three retries are
consumed, a further 5xx response makes `raise_for_status` propagate the error
(the trace ends with the raised status); and a response with status below 500
is never retried (the loop never sleeps on it). -/
theorem c1_registry_retry_backoff (rs rest rest' : List RegResponse)
    (r r' : RegResponse) (a m : Nat)
    (h5 : 500 ≤ r.status ∧ r.status < 600) (hlt : r'.status < 500) :
    (∃ k ≤ 3, sleepsOf (fetch_retry_trace rs 0) = [2, 4, 8].take k) ∧
    (fetch_retry_trace (r :: rest) 3 = [FetchEv.raised r.status]) ∧
    ((fetch_retry_trace (r' :: rest') a).head? ≠ some (FetchEv.slept m)) := by
  refine ⟨?_, ?_, ?_⟩
  · rcases sleeps_take rs 0 with ⟨k, hk⟩
    rw [List.drop_zero] at hk
    by_cases hk3 : k ≤ 3
    · exact ⟨k, hk3, hk⟩
    · refine ⟨3, le_refl 3, ?_⟩
      rw [hk, List.take_of_length_le (by simp; omega), List.take_of_length_le (by simp)]
  · simp only [fetch_retry_trace]
    rw [if_neg (by omega), if_pos (by omega)]
  · simp only [fetch_retry_trace]
    rw [if_neg (by omega)]
    by_cases h2 : 400 ≤ r'.status ∧ r'.status < 600
    · rw [if_pos h2]
      simp
    · rw [if_neg h2]
      by_cases h3 : r'.hasNext
      · rw [if_pos h3]
        simp
      · rw [if_neg h3]
        simp

/-- A concrete response stream for the C1 witness: two 503s (each retried with
a sleep), then a final 200 page with no next cursor. -/
def c1RsEx : List RegResponse :=
  [{ status := 503, hasNext := true }, { status := 503, hasNext := true },
   { status := 200, hasNext := false }]

theorem c1_registry_retry_backoff_witness :
    ((500 ≤ 502 ∧ 502 < 600) ∧ 404 < 500) ∧
    ((∃ k ≤ 3, sleepsOf (fetch_retry_trace c1RsEx 0) = [2, 4, 8].take k) ∧
     (fetch_retry_trace [{ status := 502, hasNext := false }] 3 =
        [FetchEv.raised 502]) ∧
     ((fetch_retry_trace [{ status := 404, hasNext := true }] 0).head? ≠
        some (FetchEv.slept 2))) :=
  ⟨⟨by decide, by decide⟩,
   c1_registry_retry_backoff c1RsEx [] [] { status := 502, hasNext := false }
     { status := 404, hasNext := true } 0 2 (by decide) (by decide)⟩

theorem runFiles_append (lint : String → Except String FileReport)
    (a b : List String) :
    runFiles lint (a ++ b) = runFiles lint a ++ runFiles lint b := by
  induction a with
  | nil => simp [runFiles]
  | cons fp rest ih => simp [runFiles, ih]

theorem runFiles_length (lint : String → Except String FileReport)
    (l : List String) : (runFiles lint l).length = l.length := by
  induction l with
  | nil => simp [runFiles]
  | cons fp rest ih => simp [runFiles, ih]

theorem consoleSummary_append (a b : List Report) :
    consoleSummary (a ++ b) = consoleSummary a ++ consoleSummary b := by
  induction a with
  | nil => simp [consoleSummary]
  | cons r rest ih => simp [consoleSummary, ih]

/-- **C6.**  An exception raised while linting one file is caught in the
per-file loop and becomes an error report carrying that file's path and the
error string; every other file still gets its report (one report per input
file, in order, the later files unaffected), so the exception never aborts the
run; and the recorded error is printed in the console summary as an `ERROR:`
line. -/
theorem c6_per_file_isolation (lint : String → Except String FileReport)
    (pre post : List String) (fp e : String) (h : lint fp = .error e) :
    runFiles lint (pre ++ fp :: post) =
      runFiles lint pre ++ Report.err fp e :: runFiles lint post ∧
    (runFiles lint (pre ++ fp :: post)).length = (pre ++ fp :: post).length ∧
    ("ERROR: " ++ e) ∈ consoleSummary (runFiles lint (pre ++ fp :: post)) := by
  have h1 : runFiles lint (pre ++ fp :: post) =
      runFiles lint pre ++ Report.err fp e :: runFiles lint post := by
    rw [runFiles_append]
    congr 1
    simp only [runFiles, h]
  refine ⟨h1, runFiles_length lint (pre ++ fp :: post), ?_⟩
  rw [h1, consoleSummary_append]
  refine List.mem_append.mpr (Or.inr ?_)
  simp [consoleSummary, reportLines]

/-- A concrete lint oracle for the C6 witness: linting `bad.yaml` raises,
every other file lints cleanly. -/
def lintExC6 : String → Except String FileReport :=
  fun fp =>
    if fp = "bad.yaml" then .error "boom"
    else .ok { file := fp, overall := .info, tools := [], message := some "No tools found" }

theorem c6_per_file_isolation_witness :
    lintExC6 "bad.yaml" = .error "boom" ∧
    (runFiles lintExC6 (["a.yaml"] ++ "bad.yaml" :: ["c.yaml"]) =
       runFiles lintExC6 ["a.yaml"] ++
         Report.err "bad.yaml" "boom" :: runFiles lintExC6 ["c.yaml"] ∧
     (runFiles lintExC6 (["a.yaml"] ++ "bad.yaml" :: ["c.yaml"])).length =
       (["a.yaml"] ++ "bad.yaml" :: ["c.yaml"]).length ∧
     ("ERROR: " ++ "boom") ∈
       consoleSummary (runFiles lintExC6 (["a.yaml"] ++ "bad.yaml" :: ["c.yaml"]))) :=
  ⟨rfl, c6_per_file_isolation lintExC6 ["a.yaml"] ["c.yaml"] "bad.yaml" "boom" rfl⟩

/-- The per-tool severity as the claim states it: GPT `risk_level`
`"critical"` maps to `high`, `"low"`/`"medium"`/`"high"` map to themselves,
and anything else — including a failed analysis — to `unknown`. -/
def claimSeverity : GptOutcome → Sev
  | .err _ => .unknown
  | .ok g =>
      if g.riskLevel = "critical" then Sev.high
      else if g.riskLevel = "low" then Sev.low
      else if g.riskLevel = "medium" then Sev.medium
      else if g.riskLevel = "high" then Sev.high
      else Sev.unknown

/-- The overall severity as the claim states it: `high` if any per-tool
severity is `high`, else `medium` if any, else `low` if any, else `unknown`
if any, else `info`. -/
def claimOverall (sevs : List Sev) : Sev :=
  if Sev.high ∈ sevs then .high
  else if Sev.medium ∈ sevs then .medium
  else if Sev.low ∈ sevs then .low
  else if Sev.unknown ∈ sevs then .unknown
  else .info

theorem severity_map_get_eq_claim (s : String) :
    severity_map_get s =
      (if s = "critical" then Sev.high else if s = "low" then Sev.low
       else if s = "medium" then Sev.medium else if s = "high" then Sev.high
       else Sev.unknown) := by
  by_cases h1 : s = "critical"
  · subst h1
    decide
  · by_cases h2 : s = "low"
    · subst h2
      decide
    · by_cases h3 : s = "medium"
      · subst h3
        decide
      · by_cases h4 : s = "high"
        · subst h4
          decide
        · simp [severity_map_get, h1, h2, h3, h4]

theorem overallOf_eq_claim (results : List ToolReport) :
    overallOf results = claimOverall (results.map (·.severity)) := by
  simp only [overallOf, claimOverall]
  have hh : ∀ x : Sev, x ≠ Sev.unknown →
      ((x ∈ (results.map (·.severity)).filter (fun y => y ≠ Sev.unknown)) ↔
        x ∈ results.map (·.severity)) := by
    intro x hx
    simp [List.mem_filter, hx]
  exact if_congr (hh .high (by decide)) rfl
    (if_congr (hh .medium (by decide)) rfl
      (if_congr (hh .low (by decide)) rfl rfl))

/-- **C9.**  For a file whose parsed documents yield at least one tool,
`lint_file` reports exactly the per-tool analyses with the claimed
overall-severity cascade (`high` if any, else `medium`, else `low`, else
`unknown`, else `info`) and no `message`; and each per-tool severity is the
claimed mapping of the GPT outcome (`critical → high`, `low`/`medium`/`high`
to themselves, anything else — including an analysis error — to
`unknown`). -/
theorem c9_lint_file_severity (path : String) (docs : List JVal)
    (gpt : JVal → GptOutcome) (t : JVal) (h : toolsOfDocs docs ≠ []) :
    lint_file path docs gpt =
      { file := path,
        overall := claimOverall
          (((toolsOfDocs docs).map (analyze_tool_with_gpt · gpt)).map (·.severity)),
        tools := (toolsOfDocs docs).map (analyze_tool_with_gpt · gpt),
        message := none } ∧
    (analyze_tool_with_gpt t gpt).severity = claimSeverity (gpt t) := by
  constructor
  · rw [lint_file]
    rw [if_neg (by simpa [List.isEmpty_iff] using h)]
    show ({ file := path,
            overall := overallOf ((toolsOfDocs docs).map (analyze_tool_with_gpt · gpt)),
            tools := (toolsOfDocs docs).map (analyze_tool_with_gpt · gpt),
            message := none } : FileReport) = _
    rw [overallOf_eq_claim]
  · cases hg : gpt t
    · simp [analyze_tool_with_gpt, claimSeverity, hg]
    · simp only [analyze_tool_with_gpt, hg, claimSeverity]
      exact severity_map_get_eq_claim _

/-- A concrete GPT oracle for the C9 witness: every tool comes back
`critical`. -/
def gptExC9 : JVal → GptOutcome :=
  fun _ => .ok { isMalicious := false, riskLevel := "critical", concerns := [],
                 recommendations := [], reasoning := some "r" }

/-- Concrete parsed YAML documents for the C9 witness: one document holding a
list with a single tool. -/
def docsExC9 : List JVal :=
  [JVal.list [JVal.dict [("name", .str "t"), ("description", .str "d")]]]

theorem c9_lint_file_severity_witness :
    toolsOfDocs docsExC9 ≠ [] ∧
    (lint_file "f.yaml" docsExC9 gptExC9 =
      { file := "f.yaml",
        overall := claimOverall
          (((toolsOfDocs docsExC9).map (analyze_tool_with_gpt · gptExC9)).map (·.severity)),
        tools := (toolsOfDocs docsExC9).map (analyze_tool_with_gpt · gptExC9),
        message := none } ∧
     (analyze_tool_with_gpt JVal.null gptExC9).severity = claimSeverity (gptExC9 JVal.null)) :=
  ⟨List.cons_ne_nil _ _,
   c9_lint_file_severity "f.yaml" docsExC9 gptExC9 JVal.null (List.cons_ne_nil _ _)⟩

theorem alookup_dset (kvs : List (String × JVal)) (k k' : String) (v : JVal) :
    alookup (dset kvs k v) k' = if k = k' then some v else alookup kvs k' := by
  induction kvs with
  | nil =>
      by_cases h : k = k' <;> simp [dset, alookup, h]
  | cons kv rest ih =>
      obtain ⟨a, b⟩ := kv
      by_cases hak : a = k
      · subst hak
        by_cases hk' : a = k' <;> simp [dset, alookup, hk']
      · by_cases hk' : a = k'
        · subst hk'
          have : ¬(k = a) := fun hh => hak hh.symm
          simp [dset, alookup, hak, this]
        · simp [dset, alookup, hak, hk', ih]

/-- The invariant of the parameter-conversion loops: every name in the running
`required` list is a string that is a key of the running `properties` map. -/
def reqInv (pr : List (String × JVal) × List JVal) : Prop :=
  ∀ r ∈ pr.2, ∃ s, r = JVal.str s ∧ (alookup pr.1 s).isSome = true

theorem reqInv_dset (pr : List (String × JVal) × List JVal) (k : String) (v : JVal)
    (h : reqInv pr) : reqInv (dset pr.1 k v, pr.2) := by
  intro r hr
  rcases h r hr with ⟨s, rfl, hsome⟩
  refine ⟨s, rfl, ?_⟩
  rw [alookup_dset]
  by_cases hk : k = s
  · simp [hk]
  · simp [hk, hsome]

theorem reqInv_dset_push (pr : List (String × JVal) × List JVal) (k : String)
    (v : JVal) (h : reqInv pr) : reqInv (dset pr.1 k v, pr.2 ++ [JVal.str k]) := by
  intro r hr
  rcases List.mem_append.mp hr with hr | hr
  · exact reqInv_dset pr k v h r hr
  · rcases List.mem_singleton.mp hr with rfl
    refine ⟨k, rfl, ?_⟩
    rw [alookup_dset]
    simp

theorem convDictStep_inv (pr : List (String × JVal) × List JVal)
    (kv : String × JVal) (h : reqInv pr) : reqInv (convDictStep pr kv) := by
  rw [convDictStep]
  rcases kv with ⟨k, v⟩
  cases v with
  | str s => exact reqInv_dset pr k _ h
  | dict pinfo =>
      by_cases hc : truthy ((alookup pinfo "required").getD (.bool false)) = true
      · simp only [hc, if_true]
        exact reqInv_dset_push pr k _ h
      · simp only [hc, if_false]
        exact reqInv_dset pr k _ h
  | null => exact h
  | bool b => exact h
  | num n => exact h
  | list xs => exact h

theorem convListStep_inv (pr : List (String × JVal) × List JVal) (param : JVal)
    (h : reqInv pr) : reqInv (convListStep pr param) := by
  cases param with
  | dict pkvs =>
      cases hn : alookup pkvs "name" with
      | none =>
          have he : convListStep pr (JVal.dict pkvs) = pr := by
            simp [convListStep, hn]
          rw [he]
          exact h
      | some nv =>
          cases nv with
          | str s =>
              by_cases hs : s = ""
              · have he : convListStep pr (JVal.dict pkvs) = pr := by
                  simp [convListStep, hn, hs]
                rw [he]
                exact h
              · have hs' : (s != "") = true := by simpa using hs
                by_cases hc : truthy ((alookup pkvs "required").getD (.bool false)) = true
                · have he : convListStep pr (JVal.dict pkvs) =
                      (dset pr.1 s (.dict
                         [("type", (alookup pkvs "type").getD (.str "string")),
                          ("description",
                           (alookup pkvs "description").getD
                             ((alookup pkvs "desc").getD (.str "")))]),
                       pr.2 ++ [JVal.str s]) := by
                    simp [convListStep, hn, hs', hc]
                  rw [he]
                  exact reqInv_dset_push pr s _ h
                · have hc' : truthy ((alookup pkvs "required").getD (.bool false)) = false :=
                    by simpa using hc
                  have he : convListStep pr (JVal.dict pkvs) =
                      (dset pr.1 s (.dict
                         [("type", (alookup pkvs "type").getD (.str "string")),
                          ("description",
                           (alookup pkvs "description").getD
                             ((alookup pkvs "desc").getD (.str "")))]),
                       pr.2) := by
                    simp [convListStep, hn, hs', hc']
                  rw [he]
                  exact reqInv_dset pr s _ h
          | null =>
              have he : convListStep pr (JVal.dict pkvs) = pr := by
                simp [convListStep, hn]
              rw [he]
              exact h
          | bool b =>
              have he : convListStep pr (JVal.dict pkvs) = pr := by
                simp [convListStep, hn]
              rw [he]
              exact h
          | num n =>
              have he : convListStep pr (JVal.dict pkvs) = pr := by
                simp [convListStep, hn]
              rw [he]
              exact h
          | list xs =>
              have he : convListStep pr (JVal.dict pkvs) = pr := by
                simp [convListStep, hn]
              rw [he]
              exact h
          | dict d =>
              have he : convListStep pr (JVal.dict pkvs) = pr := by
                simp [convListStep, hn]
              rw [he]
              exact h
  | null => exact h
  | bool b => exact h
  | num n => exact h
  | str s => exact h
  | list xs => exact h

theorem foldl_reqInv {α : Type}
    (step : List (String × JVal) × List JVal → α → List (String × JVal) × List JVal)
    (hstep : ∀ pr x, reqInv pr → reqInv (step pr x)) :
    ∀ (l : List α) (pr : List (String × JVal) × List JVal),
      reqInv pr → reqInv (l.foldl step pr) := by
  intro l
  induction l with
  | nil => intro pr h; exact h
  | cons x rest ih =>
      intro pr h
      exact ih (step pr x) (hstep pr x h)

/-- **C10.**  `convert_tool_to_openai_format` always returns an object with
`type` `"function"` whose `function` object has a `name` (defaulting to
`"unnamed_tool"`) and a `description` (defaulting to the empty string); and
whenever the input's `params` value is a dict or a list, the output carries a
`parameters` object of `type` `"object"` whose `required` list only names keys
of its `properties` map. -/
theorem c10_openai_format_invariants (tool : List (String × JVal)) :
    (∃ fkvs,
      convert_tool_to_openai_format tool =
        JVal.dict [("type", JVal.str "function"), ("function", JVal.dict fkvs)] ∧
      alookup fkvs "name" = some ((alookup tool "name").getD (JVal.str "unnamed_tool")) ∧
      alookup fkvs "description" =
        some ((alookup tool "description").getD (JVal.str ""))) ∧
    (∀ kvs ps,
      ((alookup tool "params").getD (JVal.dict []) = JVal.dict kvs ∨
       (alookup tool "params").getD (JVal.dict []) = JVal.list ps) →
      ∃ fkvs pk props reqs,
        convert_tool_to_openai_format tool =
          JVal.dict [("type", JVal.str "function"), ("function", JVal.dict fkvs)] ∧
        alookup fkvs "parameters" = some (JVal.dict pk) ∧
        alookup pk "type" = some (JVal.str "object") ∧
        alookup pk "properties" = some (JVal.dict props) ∧
        alookup pk "required" = some (JVal.list reqs) ∧
        ∀ r ∈ reqs, ∃ s, r = JVal.str s ∧ (alookup props s).isSome = true) := by
  cases hp : (alookup tool "params").getD (JVal.dict []) with
  | dict kvs =>
      have he : convert_tool_to_openai_format tool =
          JVal.dict [("type", JVal.str "function"),
            ("function", JVal.dict
              [("name", (alookup tool "name").getD (JVal.str "unnamed_tool")),
               ("description", (alookup tool "description").getD (JVal.str "")),
               ("parameters", JVal.dict
                 [("type", JVal.str "object"),
                  ("properties", JVal.dict (kvs.foldl convDictStep ([], [])).1),
                  ("required", JVal.list (kvs.foldl convDictStep ([], [])).2)])])] := by
        simp [convert_tool_to_openai_format, hp]
      constructor
      · exact ⟨_, he, by simp [alookup], by simp [alookup]⟩
      · intro kvs' ps' _
        refine ⟨[("name", (alookup tool "name").getD (JVal.str "unnamed_tool")),
                 ("description", (alookup tool "description").getD (JVal.str "")),
                 ("parameters", JVal.dict
                   [("type", JVal.str "object"),
                    ("properties", JVal.dict (kvs.foldl convDictStep ([], [])).1),
                    ("required", JVal.list (kvs.foldl convDictStep ([], [])).2)])],
                [("type", JVal.str "object"),
                 ("properties", JVal.dict (kvs.foldl convDictStep ([], [])).1),
                 ("required", JVal.list (kvs.foldl convDictStep ([], [])).2)],
                (kvs.foldl convDictStep ([], [])).1,
                (kvs.foldl convDictStep ([], [])).2,
                he, by simp [alookup], by simp [alookup], by simp [alookup],
                by simp [alookup], ?_⟩
        exact foldl_reqInv convDictStep convDictStep_inv kvs ([], []) (by simp [reqInv])
  | list ps =>
      have he : convert_tool_to_openai_format tool =
          JVal.dict [("type", JVal.str "function"),
            ("function", JVal.dict
              [("name", (alookup tool "name").getD (JVal.str "unnamed_tool")),
               ("description", (alookup tool "description").getD (JVal.str "")),
               ("parameters", JVal.dict
                 [("type", JVal.str "object"),
                  ("properties", JVal.dict (ps.foldl convListStep ([], [])).1),
                  ("required", JVal.list (ps.foldl convListStep ([], [])).2)])])] := by
        simp [convert_tool_to_openai_format, hp]
      constructor
      · exact ⟨_, he, by simp [alookup], by simp [alookup]⟩
      · intro kvs' ps' _
        refine ⟨[("name", (alookup tool "name").getD (JVal.str "unnamed_tool")),
                 ("description", (alookup tool "description").getD (JVal.str "")),
                 ("parameters", JVal.dict
                   [("type", JVal.str "object"),
                    ("properties", JVal.dict (ps.foldl convListStep ([], [])).1),
                    ("required", JVal.list (ps.foldl convListStep ([], [])).2)])],
                [("type", JVal.str "object"),
                 ("properties", JVal.dict (ps.foldl convListStep ([], [])).1),
                 ("required", JVal.list (ps.foldl convListStep ([], [])).2)],
                (ps.foldl convListStep ([], [])).1,
                (ps.foldl convListStep ([], [])).2,
                he, by simp [alookup], by simp [alookup], by simp [alookup],
                by simp [alookup], ?_⟩
        exact foldl_reqInv convListStep convListStep_inv ps ([], []) (by simp [reqInv])
  | null =>
      have he : convert_tool_to_openai_format tool =
          JVal.dict [("type", JVal.str "function"),
            ("function", JVal.dict
              [("name", (alookup tool "name").getD (JVal.str "unnamed_tool")),
               ("description", (alookup tool "description").getD (JVal.str ""))])] := by
        simp [convert_tool_to_openai_format, hp]
      refine ⟨⟨_, he, by simp [alookup], by simp [alookup]⟩, ?_⟩
      intro kvs' ps' hor
      rcases hor with hor | hor <;> simp [hp] at hor
  | bool b =>
      have he : convert_tool_to_openai_format tool =
          JVal.dict [("type", JVal.str "function"),
            ("function", JVal.dict
              [("name", (alookup tool "name").getD (JVal.str "unnamed_tool")),
               ("description", (alookup tool "description").getD (JVal.str ""))])] := by
        simp [convert_tool_to_openai_format, hp]
      refine ⟨⟨_, he, by simp [alookup], by simp [alookup]⟩, ?_⟩
      intro kvs' ps' hor
      rcases hor with hor | hor <;> simp [hp] at hor
  | num n =>
      have he : convert_tool_to_openai_format tool =
          JVal.dict [("type", JVal.str "function"),
            ("function", JVal.dict
              [("name", (alookup tool "name").getD (JVal.str "unnamed_tool")),
               ("description", (alookup tool "description").getD (JVal.str ""))])] := by
        simp [convert_tool_to_openai_format, hp]
      refine ⟨⟨_, he, by simp [alookup], by simp [alookup]⟩, ?_⟩
      intro kvs' ps' hor
      rcases hor with hor | hor <;> simp [hp] at hor
  | str s =>
      have he : convert_tool_to_openai_format tool =
          JVal.dict [("type", JVal.str "function"),
            ("function", JVal.dict
              [("name", (alookup tool "name").getD (JVal.str "unnamed_tool")),
               ("description", (alookup tool "description").getD (JVal.str ""))])] := by
        simp [convert_tool_to_openai_format, hp]
      refine ⟨⟨_, he, by simp [alookup], by simp [alookup]⟩, ?_⟩
      intro kvs' ps' hor
      rcases hor with hor | hor <;> simp [hp] at hor

theorem bestLookup_cat {V : Type} (a b : List (String × Option V × RegEntry))
    (k : String) :
    bestLookup (a ++ b) k =
      (match bestLookup a k with
       | some x => some x
       | none => bestLookup b k) := by
  induction a with
  | nil => simp [bestLookup]
  | cons kv rest ih =>
      obtain ⟨k0, x⟩ := kv
      by_cases h : k0 = k <;> simp [bestLookup, h, ih]

theorem bestLookup_bestSet {V : Type} (best : List (String × Option V × RegEntry))
    (k k' : String) (v : Option V × RegEntry) :
    bestLookup (bestSet best k v) k' = if k = k' then some v else bestLookup best k' := by
  induction best with
  | nil => by_cases h : k = k' <;> simp [bestSet, bestLookup, h]
  | cons kv rest ih =>
      obtain ⟨a, b⟩ := kv
      by_cases hak : a = k
      · subst hak
        by_cases hk' : a = k' <;> simp [bestSet, bestLookup, hk']
      · by_cases hk' : a = k'
        · subst hk'
          have hne : ¬(k = a) := fun hh => hak hh.symm
          simp [bestSet, bestLookup, hak, hne]
        · simp [bestSet, bestLookup, hak, hk', ih]

theorem claimChoose_some {V : Type} [LinearOrder V] (pv : String → Option V)
    (ov : Option V) (oe e : RegEntry) :
    claimChoose pv (some (ov, oe)) e =
      (if (match parse_ver_str pv e.version, ov with
           | none, _ => false
           | some _, none => true
           | some nv, some o => decide (o < nv)) = true
       then some (parse_ver_str pv e.version, e) else some (ov, oe)) := by
  cases hn : parse_ver_str pv e.version with
  | none => simp [claimChoose, hn]
  | some nv =>
      cases ov with
      | none => simp [claimChoose, hn]
      | some o =>
          by_cases ho : o < nv
          · simp [claimChoose, hn, ho]
          · simp [claimChoose, hn, ho]

theorem bestLookup_updBest {V : Type} [LinearOrder V] (pv : String → Option V)
    (best : List (String × Option V × RegEntry)) (e : RegEntry) (k : String) :
    bestLookup (updBest pv best e) k =
      (if server_key e = k then claimChoose pv (bestLookup best k) e
       else bestLookup best k) := by
  cases hb : bestLookup best (server_key e) with
  | none =>
      have he : updBest pv best e =
          best ++ [(server_key e, (parse_ver_str pv e.version, e))] := by
        simp [updBest, hb]
      rw [he, bestLookup_cat]
      by_cases hk : server_key e = k
      · subst hk
        rw [hb]
        simp [bestLookup, claimChoose]
      · rw [if_neg hk]
        cases hbk : bestLookup best k with
        | none => simp [bestLookup, hk]
        | some x => simp
  | some p =>
      obtain ⟨oldv, olde⟩ := p
      cases hn : parse_ver_str pv e.version with
      | none =>
          have he : updBest pv best e = best := by
            simp [updBest, hb, hn]
          have hcc : claimChoose pv (some (oldv, olde)) e = some (oldv, olde) := by
            simp [claimChoose, hn]
          rw [he]
          by_cases hk : server_key e = k
          · rw [if_pos hk, ← hk, hb, hcc]
          · rw [if_neg hk]
      | some nv =>
          cases oldv with
          | none =>
              have he : updBest pv best e =
                  bestSet best (server_key e) (some nv, e) := by
                simp [updBest, hb, hn]
              have hcc : claimChoose pv (some (none, olde)) e = some (some nv, e) := by
                simp [claimChoose, hn]
              rw [he, bestLookup_bestSet]
              by_cases hk : server_key e = k
              · rw [if_pos hk, if_pos hk, ← hk, hb, hcc]
              · rw [if_neg hk, if_neg hk]
          | some o =>
              by_cases ho : o < nv
              · have he : updBest pv best e =
                    bestSet best (server_key e) (some nv, e) := by
                  simp [updBest, hb, hn, ho]
                have hcc : claimChoose pv (some (some o, olde)) e =
                    some (some nv, e) := by
                  simp [claimChoose, hn, ho]
                rw [he, bestLookup_bestSet]
                by_cases hk : server_key e = k
                · rw [if_pos hk, if_pos hk, ← hk, hb, hcc]
                · rw [if_neg hk, if_neg hk]
              · have he : updBest pv best e = best := by
                  simp [updBest, hb, hn, ho]
                have hcc : claimChoose pv (some (some o, olde)) e =
                    some (some o, olde) := by
                  simp [claimChoose, hn, ho]
                rw [he]
                by_cases hk : server_key e = k
                · rw [if_pos hk, ← hk, hb, hcc]
                · rw [if_neg hk]

theorem bestLookup_fold {V : Type} [LinearOrder V] (pv : String → Option V)
    (items : List (Option RegEntry)) (best : List (String × Option V × RegEntry))
    (k : String) :
    bestLookup
        (items.foldl
          (fun best it => match it with | none => best | some e => updBest pv best e)
          best) k =
      ((items.filterMap id).filter (fun e => server_key e = k)).foldl
        (claimChoose pv) (bestLookup best k) := by
  induction items generalizing best with
  | nil => simp
  | cons it rest ih =>
      cases it with
      | none => simp [ih]
      | some e =>
          simp only [List.foldl_cons]
          rw [ih]
          have hfm : List.filterMap id (some e :: rest) = e :: List.filterMap id rest := by
            simp
          rw [hfm]
          by_cases hk : server_key e = k
          · rw [List.filter_cons_of_pos (by simpa using hk), List.foldl_cons,
              bestLookup_updBest, if_pos hk]
          · rw [List.filter_cons_of_neg (by simpa using hk),
              bestLookup_updBest, if_neg hk]

theorem bestLookup_eq_none_iff {V : Type}
    (best : List (String × Option V × RegEntry)) (k : String) :
    bestLookup best k = none ↔ k ∉ best.map (·.1) := by
  induction best with
  | nil => simp [bestLookup]
  | cons kv rest ih =>
      obtain ⟨a, b⟩ := kv
      by_cases h : a = k
      · subst h
        simp [bestLookup]
      · simp only [bestLookup, if_neg h, ih, List.map_cons, List.mem_cons]
        constructor
        · intro hk
          rintro (rfl | hm)
          · exact h rfl
          · exact hk hm
        · intro hk hm
          exact hk (Or.inr hm)

theorem mem_bestSet {V : Type} (best : List (String × Option V × RegEntry))
    (k : String) (v : Option V × RegEntry) (t : String × Option V × RegEntry) :
    t ∈ bestSet best k v → t = (k, v) ∨ t ∈ best := by
  induction best with
  | nil =>
      intro ht
      simp [bestSet] at ht
      exact Or.inl ht
  | cons kv rest ih =>
      obtain ⟨a, b⟩ := kv
      intro ht
      by_cases h : a = k
      · subst h
        simp only [bestSet, if_pos rfl, eq_self_iff_true, if_true,
          List.mem_cons] at ht
        rcases ht with h1 | h1
        · exact Or.inl h1
        · exact Or.inr (List.mem_cons_of_mem _ h1)
      · simp only [bestSet, if_neg h, List.mem_cons] at ht
        rcases ht with h1 | h1
        · rw [h1]
          exact Or.inr (List.mem_cons_self ..)
        · rcases ih h1 with h2 | h2
          · exact Or.inl h2
          · exact Or.inr (List.mem_cons_of_mem _ h2)

theorem map_fst_bestSet {V : Type} (best : List (String × Option V × RegEntry))
    (k : String) (v : Option V × RegEntry)
    (h : (bestLookup best k).isSome = true) :
    (bestSet best k v).map (·.1) = best.map (·.1) := by
  induction best with
  | nil => simp [bestLookup] at h
  | cons kv rest ih =>
      obtain ⟨a, b⟩ := kv
      by_cases hak : a = k
      · subst hak
        simp [bestSet]
      · simp only [bestLookup, if_neg hak] at h
        simp [bestSet, hak, ih h]

/-- Invariant of the `best` dict: its keys are distinct, and every stored
entry stands under its own server key. -/
def bestInv {V : Type} (best : List (String × Option V × RegEntry)) : Prop :=
  (best.map (·.1)).Nodup ∧ ∀ t ∈ best, t.1 = server_key t.2.2

theorem updBest_inv {V : Type} [LinearOrder V] (pv : String → Option V)
    (best : List (String × Option V × RegEntry)) (e : RegEntry)
    (h : bestInv best) : bestInv (updBest pv best e) := by
  cases hb : bestLookup best (server_key e) with
  | none =>
      have he : updBest pv best e =
          best ++ [(server_key e, (parse_ver_str pv e.version, e))] := by
        simp [updBest, hb]
      rw [he]
      constructor
      · rw [List.map_append, List.nodup_append]
        refine ⟨h.1, by simp, ?_⟩
        intro a ha hb'
        simp only [List.map_cons, List.map_nil, List.mem_cons,
          List.not_mem_nil, or_false] at hb'
        subst hb'
        exact (bestLookup_eq_none_iff best _).mp hb ha
      · intro t ht
        rcases List.mem_append.mp ht with ht | ht
        · exact h.2 t ht
        · simp only [List.mem_cons, List.not_mem_nil, or_false] at ht
          rw [ht]
  | some p =>
      obtain ⟨oldv, olde⟩ := p
      have hsome : (bestLookup best (server_key e)).isSome = true := by
        rw [hb]
        rfl
      have hset : ∀ w : Option V,
          bestInv (bestSet best (server_key e) (w, e)) := by
        intro w
        constructor
        · rw [map_fst_bestSet best _ _ hsome]
          exact h.1
        · intro t ht
          rcases mem_bestSet best _ _ t ht with h1 | h1
          · rw [h1]
          · exact h.2 t h1
      cases hn : parse_ver_str pv e.version with
      | none =>
          have he : updBest pv best e = best := by
            simp [updBest, hb, hn]
          rw [he]
          exact h
      | some nv =>
          cases oldv with
          | none =>
              have he : updBest pv best e =
                  bestSet best (server_key e) (some nv, e) := by
                simp [updBest, hb, hn]
              rw [he]
              exact hset (some nv)
          | some o =>
              by_cases ho : o < nv
              · have he : updBest pv best e =
                    bestSet best (server_key e) (some nv, e) := by
                  simp [updBest, hb, hn, ho]
                rw [he]
                exact hset (some nv)
              · have he : updBest pv best e = best := by
                  simp [updBest, hb, hn, ho]
                rw [he]
                exact h

theorem fetch_dedup_inv {V : Type} [LinearOrder V] (pv : String → Option V)
    (items : List (Option RegEntry)) : bestInv (fetch_dedup pv items) := by
  rw [fetch_dedup]
  have hgen : ∀ (l : List (Option RegEntry))
      (best : List (String × Option V × RegEntry)), bestInv best →
      bestInv (l.foldl
        (fun best it => match it with | none => best | some e => updBest pv best e)
        best) := by
    intro l
    induction l with
    | nil => intro best hb; exact hb
    | cons it rest ih =>
        intro best hb
        cases it with
        | none => exact ih best hb
        | some e => exact ih _ (updBest_inv pv best e hb)
  exact hgen items [] ⟨by simp, by simp⟩

/-- **C4.**  `fetch_modelcontextprotocol_registry_servers` returns at most one
entry per `_server_key` (the keys of the returned entries are pairwise
distinct); and for every key, the retained dict entry is exactly the fold of
the claimed retention rule (`claimChoose`) over the fetched entries with that
key, in order: the first-seen entry is retained unless a later entry's version
string parses (after stripping leading `v`/`V`) to a strictly greater version
— a parsed version counting as strictly greater than an unparsed one — and an
entry whose version does not parse never replaces anything. -/
theorem c4_fetch_dedup {V : Type} [LinearOrder V] (pv : String → Option V)
    (items : List (Option RegEntry)) (k : String) :
    ((fetch_servers pv items).map server_key).Nodup ∧
    bestLookup (fetch_dedup pv items) k =
      ((items.filterMap id).filter (fun e => server_key e = k)).foldl
        (claimChoose pv) none := by
  constructor
  · have hinv := fetch_dedup_inv pv items
    have hmap : (fetch_servers pv items).map server_key =
        (fetch_dedup pv items).map (·.1) := by
      rw [fetch_servers, List.map_map]
      exact List.map_congr_left (fun t ht => (hinv.2 t ht).symm)
    rw [hmap]
    exact hinv.1
  · have := bestLookup_fold pv items [] k
    rw [fetch_dedup]
    simpa [bestLookup] using this

theorem classifyStep_filtered (ctx : SyncCtx) (st : FState) (s : Server)
    (m : RepoMeta) (d : String) :
    (classifyStep ctx st s m d).filtered =
      (if d = "official" then st.filtered ++ [(s, "official")]
       else if d = "community" then
         (if is_popular_community ctx.starMin ctx.recentDays m = true
          then st.filtered ++ [(s, "community")] else st.filtered)
       else st.filtered) := by
  rw [classifyStep]
  split_ifs <;> rfl

theorem processServer_filtered_cases (ctx : SyncCtx) (st : FState) (s : Server) :
    (processServer ctx st s).filtered = st.filtered ∨
    ∃ kk, (processServer ctx st s).filtered = st.filtered ++ [(s, kk)] := by
  simp only [processServer, classifyStep]
  repeat' split
  all_goals first
    | exact Or.inl rfl
    | exact Or.inr ⟨_, rfl⟩

theorem processServer_excluded (ctx : SyncCtx) (st : FState) (s : Server)
    (hact : pyLower s.active = "active")
    (hidx : s.name ∉ ctx.existing)
    (hdup :
      (((pyLower ((pySplit s.name '/').getLastD "")) ≠ "mcp") ∧
        strIn (pyLower ((pySplit s.name '/').getLastD "")) ctx.oneLongName = true) ∨
      (∃ u, s.repoUrl = some u ∧ normalize_url u ∈ ctx.urlSet)) :
    (processServer ctx st s).filtered = st.filtered := by
  simp only [processServer]
  rw [if_neg (fun hh => hh hact), if_neg hidx]
  by_cases hname : ((pyLower ((pySplit s.name '/').getLastD "")) ≠ "mcp") ∧
      strIn (pyLower ((pySplit s.name '/').getLastD "")) ctx.oneLongName = true
  · rw [if_pos hname]
  · rw [if_neg hname]
    rcases hdup with hn | ⟨u, hu, hmem⟩
    · exact absurd hn hname
    · simp only [hu]
      rw [if_pos (by simpa using hmem)]

theorem processServer_guards (ctx : SyncCtx) (st : FState) (s : Server)
    (o r : String) (m : RepoMeta)
    (hact : pyLower s.active = "active")
    (hidx : s.name ∉ ctx.existing)
    (hname : ¬(((pyLower ((pySplit s.name '/').getLastD "")) ≠ "mcp") ∧
      strIn (pyLower ((pySplit s.name '/').getLastD "")) ctx.oneLongName = true))
    (hurl : ∀ u, s.repoUrl = some u → normalize_url u ∉ ctx.urlSet)
    (hparse : parseRepoUrlOpt s.repoUrl = some (o, r))
    (hmeta : ctx.repoMeta o r = some m) :
    (processServer ctx st s).filtered =
      (classifyStep ctx st s m (effectiveDecision st.cache ctx.judge s)).filtered := by
  simp only [processServer]
  rw [if_neg (fun hh => hh hact), if_neg hidx, if_neg hname]
  cases hu : s.repoUrl with
  | none =>
      rw [hu] at hparse
      exact absurd hparse (by simp [parseRepoUrlOpt])
  | some u =>
      have hnm := hurl u hu
      rw [hu] at hparse
      simp only [hu, hparse, hmeta]
      rw [if_neg (by simpa using hnm)]
      cases hc : cacheLookup st.cache (get_cache_key s) with
      | some c =>
          simp only [effectiveDecision, hc]
      | none =>
          simp only [effectiveDecision, hc]
          rw [classifyStep_filtered, classifyStep_filtered]

theorem is_popular_community_iff (starMin recentDays : Int) (m : RepoMeta) :
    is_popular_community starMin recentDays m = true ↔
      (starMin ≤ m.stars ∧ (∃ d, m.pushedDays = some d ∧ d ≤ recentDays) ∧
       m.isArchived = false) := by
  rw [is_popular_community]
  cases hp : m.pushedDays <;> simp [hp, and_assoc]

/-- **C3.**  In `filter_group_x_ai`, an active server that is not in the state
index is excluded from the returned `filtered_servers` whenever its non-empty
repository URL normalizes (via `normalize_url`) to the normalized `repoURL` of
some catalog entry, and likewise whenever its lowercased final name segment
(other than `"mcp"`) occurs as a substring of the space-joined lowercased
catalog names. -/
theorem c3_filter_dedup_exclusion (repoMeta : String → String → Option RepoMeta)
    (judge : Server → AiResult) (starMin recentDays : Int)
    (servers : List Server) (catalog : List CatalogEntry)
    (existing : List String) (initCache : List (String × CacheEntry))
    (s : Server) (kk : String)
    (hact : pyLower s.active = "active")
    (hidx : s.name ∉ existing)
    (hdup :
      (((pyLower ((pySplit s.name '/').getLastD "")) ≠ "mcp") ∧
        strIn (pyLower ((pySplit s.name '/').getLastD ""))
          (pyLower (String.intercalate " " (catalog.map (·.name)))) = true) ∨
      (∃ u, s.repoUrl = some u ∧
        ∃ y ∈ catalog, normalize_url u = normalize_url y.repoUrl)) :
    (s, kk) ∉ (filter_group_x_ai repoMeta judge starMin recentDays servers catalog
      existing initCache).filtered := by
  rw [filter_group_x_ai]
  have hdup' :
      (((pyLower ((pySplit s.name '/').getLastD "")) ≠ "mcp") ∧
        strIn (pyLower ((pySplit s.name '/').getLastD ""))
          (mkSyncCtx repoMeta judge starMin recentDays catalog existing).oneLongName
          = true) ∨
      (∃ u, s.repoUrl = some u ∧
        normalize_url u ∈
          (mkSyncCtx repoMeta judge starMin recentDays catalog existing).urlSet) := by
    rcases hdup with hn | ⟨u, hu, y, hy, he⟩
    · exact Or.inl hn
    · refine Or.inr ⟨u, hu, ?_⟩
      exact List.mem_map.mpr ⟨y, hy, he.symm⟩
  have hstep : ∀ (t : Server) (st : FState), (s, kk) ∉ st.filtered →
      (s, kk) ∉
        (processServer (mkSyncCtx repoMeta judge starMin recentDays catalog existing)
          st t).filtered := by
    intro t st hst
    by_cases hts : t = s
    · subst hts
      rw [processServer_excluded _ st t hact hidx hdup']
      exact hst
    · rcases processServer_filtered_cases
        (mkSyncCtx repoMeta judge starMin recentDays catalog existing) st t with
        hcase | ⟨kk', hcase⟩
      · rw [hcase]
        exact hst
      · rw [hcase]
        intro hmem
        rcases List.mem_append.mp hmem with hmem | hmem
        · exact hst hmem
        · have heq := List.mem_singleton.mp hmem
          exact hts ((Prod.ext_iff.mp heq).1.symm)
  have hfold : ∀ (l : List Server) (st : FState), (s, kk) ∉ st.filtered →
      (s, kk) ∉
        (l.foldl
          (processServer (mkSyncCtx repoMeta judge starMin recentDays catalog existing))
          st).filtered := by
    intro l
    induction l with
    | nil => intro st h; exact h
    | cons t rest ih =>
        intro st h
        exact ih _ (hstep t st h)
  exact hfold servers _ (by simp)

/-- **C8.**  At the classification step of `filter_group_x_ai` (an active,
non-indexed, non-duplicate server whose repository parsed and whose
`repo_info` call succeeded), a server whose effective AI judgement (cached or
fresh) is `"official"` is always appended to `filtered_servers` with kind
`"official"`; one judged `"community"` is appended with kind `"community"` if
and only if it is popular — at least `STAR_MIN` stars (default 500), pushed to
within `RECENT_DAYS` days (default 30), and not archived; any other judgement
(e.g. `"uncertain"`) appends nothing. -/
theorem c8_filter_ai_classification (ctx : SyncCtx) (st : FState) (s : Server)
    (o r : String) (m : RepoMeta)
    (hact : pyLower s.active = "active")
    (hidx : s.name ∉ ctx.existing)
    (hname : ¬(((pyLower ((pySplit s.name '/').getLastD "")) ≠ "mcp") ∧
      strIn (pyLower ((pySplit s.name '/').getLastD "")) ctx.oneLongName = true))
    (hurl : ∀ u, s.repoUrl = some u → normalize_url u ∉ ctx.urlSet)
    (hparse : parseRepoUrlOpt s.repoUrl = some (o, r))
    (hmeta : ctx.repoMeta o r = some m) :
    ((effectiveDecision st.cache ctx.judge s = "official" →
       (processServer ctx st s).filtered = st.filtered ++ [(s, "official")]) ∧
     (effectiveDecision st.cache ctx.judge s = "community" →
       (processServer ctx st s).filtered =
         (if is_popular_community ctx.starMin ctx.recentDays m = true
          then st.filtered ++ [(s, "community")] else st.filtered)) ∧
     (effectiveDecision st.cache ctx.judge s ≠ "official" →
      effectiveDecision st.cache ctx.judge s ≠ "community" →
       (processServer ctx st s).filtered = st.filtered) ∧
     (is_popular_community ctx.starMin ctx.recentDays m = true ↔
       (ctx.starMin ≤ m.stars ∧
        (∃ d, m.pushedDays = some d ∧ d ≤ ctx.recentDays) ∧
        m.isArchived = false))) := by
  have hmain := processServer_guards ctx st s o r m hact hidx hname hurl hparse hmeta
  rw [hmain, classifyStep_filtered]
  refine ⟨?_, ?_, ?_, is_popular_community_iff ctx.starMin ctx.recentDays m⟩
  · intro hd
    rw [if_pos hd]
  · intro hd
    rw [if_neg (by rw [hd]; decide), if_pos hd]
  · intro hd1 hd2
    rw [if_neg hd1, if_neg hd2]

/-- Concrete server for the C3 witness: active, not in the state index, and a
name duplicate of the catalog entry below. -/
def c3SEx : Server :=
  { active := "Active", name := "acme/slack",
    repoUrl := some { scheme := "https", host := "github.com", port := none,
                      path := "/acme/slack-mcp" },
    hasRemotes := false }

/-- Concrete catalog entry for the C3 witness. -/
def c3CatEx : CatalogEntry :=
  { name := "Slack",
    repoUrl := { scheme := "https", host := "github.com", port := none,
                 path := "/slackapi/mcp" } }

/-- Repo-info oracle for the C3 witness (never consulted on this input). -/
def c3RepoMetaEx : String → String → Option RepoMeta := fun _ _ => none

/-- AI judge oracle for the C3 witness (never consulted on this input). -/
def c3JudgeEx : Server → AiResult := fun _ => { decision := "uncertain", reason := "" }

theorem c3_filter_dedup_exclusion_witness :
    (pyLower c3SEx.active = "active" ∧
     c3SEx.name ∉ ["other"] ∧
     ((((pyLower ((pySplit c3SEx.name '/').getLastD "")) ≠ "mcp") ∧
        strIn (pyLower ((pySplit c3SEx.name '/').getLastD ""))
          (pyLower (String.intercalate " " ([c3CatEx].map (·.name)))) = true) ∨
      (∃ u, c3SEx.repoUrl = some u ∧
        ∃ y ∈ [c3CatEx], normalize_url u = normalize_url y.repoUrl))) ∧
    (c3SEx, "official") ∉
      (filter_group_x_ai c3RepoMetaEx c3JudgeEx 500 30 [c3SEx] [c3CatEx] ["other"]
        []).filtered :=
  ⟨⟨by decide, by decide, Or.inl (by decide)⟩,
   c3_filter_dedup_exclusion c3RepoMetaEx c3JudgeEx 500 30 [c3SEx] [c3CatEx]
     ["other"] [] c3SEx "official" (by decide) (by decide) (Or.inl (by decide))⟩

/-- Concrete repository metadata for the C8 witness: popular enough. -/
def c8MEx : RepoMeta :=
  { stars := 700, pushedDays := some 5, isFork := false, isArchived := false }

/-- Concrete context for the C8 witness: empty catalog data, a repo-info
oracle answering `c8MEx`, an AI judge answering `"community"`, and the default
`STAR_MIN`/`RECENT_DAYS`. -/
def c8CtxEx : SyncCtx :=
  { existing := [], urlSet := [], oneLongName := "",
    repoMeta := fun _ _ => some c8MEx,
    judge := fun _ => { decision := "community", reason := "r" },
    starMin := 500, recentDays := 30 }

/-- Concrete server for the C8 witness. -/
def c8SEx : Server :=
  { active := "active", name := "acme/widget",
    repoUrl := some { scheme := "https", host := "github.com", port := none,
                      path := "/acme/widget" },
    hasRemotes := false }

/-- Concrete loop state for the C8 witness: empty AI cache, nothing filtered
yet. -/
def c8StEx : FState :=
  { cache := [], misses := 0, filtered := [], nonActive := [], likelyRemote := [] }

theorem c8_filter_ai_classification_witness :
    (pyLower c8SEx.active = "active" ∧
     c8SEx.name ∉ c8CtxEx.existing ∧
     ¬(((pyLower ((pySplit c8SEx.name '/').getLastD "")) ≠ "mcp") ∧
        strIn (pyLower ((pySplit c8SEx.name '/').getLastD "")) c8CtxEx.oneLongName
          = true) ∧
     (∀ u, c8SEx.repoUrl = some u → normalize_url u ∉ c8CtxEx.urlSet) ∧
     parseRepoUrlOpt c8SEx.repoUrl = some ("acme", "widget") ∧
     c8CtxEx.repoMeta "acme" "widget" = some c8MEx) ∧
    ((effectiveDecision c8StEx.cache c8CtxEx.judge c8SEx = "official" →
       (processServer c8CtxEx c8StEx c8SEx).filtered =
         c8StEx.filtered ++ [(c8SEx, "official")]) ∧
     (effectiveDecision c8StEx.cache c8CtxEx.judge c8SEx = "community" →
       (processServer c8CtxEx c8StEx c8SEx).filtered =
         (if is_popular_community c8CtxEx.starMin c8CtxEx.recentDays c8MEx = true
          then c8StEx.filtered ++ [(c8SEx, "community")] else c8StEx.filtered)) ∧
     (effectiveDecision c8StEx.cache c8CtxEx.judge c8SEx ≠ "official" →
      effectiveDecision c8StEx.cache c8CtxEx.judge c8SEx ≠ "community" →
       (processServer c8CtxEx c8StEx c8SEx).filtered = c8StEx.filtered) ∧
     (is_popular_community c8CtxEx.starMin c8CtxEx.recentDays c8MEx = true ↔
       (c8CtxEx.starMin ≤ c8MEx.stars ∧
        (∃ d, c8MEx.pushedDays = some d ∧ d ≤ c8CtxEx.recentDays) ∧
        c8MEx.isArchived = false))) :=
  ⟨⟨by decide, by decide, by decide, fun u _ => List.not_mem_nil _, rfl, rfl⟩,
   c8_filter_ai_classification c8CtxEx c8StEx c8SEx "acme" "widget" c8MEx
     (by decide) (by decide) (by decide) (fun u _ => List.not_mem_nil _) rfl rfl⟩
